import Mathlib

/-!
Verification of the chumsky zero-copy combinator runtime.

The development shallowly embeds the parser runtime of the repository:

* the infrastructure that lives in the (absent) `zero_copy` core module —
  the input cursor, located errors, the error trait and the compile-time
  `Mode` machinery — is modelled from the specification (each such
  definition carries a doc comment starting with `Modelled from the spec`);
* every parser primitive and combinator is translated directly from
  `src/src/zero_copy/primitive.rs` and `src/src/zero_copy/combinator.rs`
  (each definition names the Rust item it embeds);
* the write-once recursive cell is translated from `src/src/recursive.rs`.

Inputs are token lists, cursor positions are natural numbers, and parse
outputs live in a single universal value domain `Val`.  Parsing functions
are fuel-indexed so that every definition is executable and every concrete
run can be established by `rfl`.
-/

/-- Modelled from the spec: spans identify source ranges; `span_since(start)`
produces the pair of the saved position and the current position. -/
abbrev Span := Nat × Nat

/-- Modelled from the spec: the simple error variant of the error trait,
collecting the expected tokens (`none` marks end-of-input) and the found
token, together with the span at which the failure arose. -/
structure ErrV (Tok : Type) where
  expected : List (Option Tok)
  found : Option Tok
  span : Span
deriving Repr, DecidableEq

/-- Modelled from the spec: the `expected_found` constructor of the error
trait. -/
def expectedFound {Tok : Type} (expected : List (Option Tok)) (found : Option Tok)
    (span : Span) : ErrV Tok :=
  ⟨expected, found, span⟩

/-- Modelled from the spec: `merge` combines two errors raised at the same
position; the simple variant appends the expected sets and keeps the first
error's found token and span. -/
def ErrV.merge {Tok : Type} (a b : ErrV Tok) : ErrV Tok :=
  ⟨a.expected ++ b.expected, a.found, a.span⟩

/-- Modelled from the spec: a located error pairs an error value with the
input position at which it was raised. -/
structure Located (Tok : Type) where
  pos : Nat
  err : ErrV Tok
deriving Repr, DecidableEq

/-- Modelled from the spec: `prioritize` picks the error at the further
input position; ties fall through to the supplied merge function. -/
def Located.prioritize {Tok : Type} (a b : Located Tok)
    (m : ErrV Tok → ErrV Tok → ErrV Tok) : Located Tok :=
  if a.pos < b.pos then b
  else if b.pos < a.pos then a
  else ⟨a.pos, m a.err b.err⟩

/-- Universal domain for parser outputs, user state and context values. -/
inductive Val (Tok : Type) where
  | unit : Val Tok
  | nat : Nat → Val Tok
  | tok : Tok → Val Tok
  | list : List (Val Tok) → Val Tok
  | pair : Val Tok → Val Tok → Val Tok
  | opt : Option (Val Tok) → Val Tok
deriving Repr

/-- Container push: appends to a list value (other shapes are untouched;
they do not arise for the container instances the runtime uses). -/
def Val.push {Tok : Type} : Val Tok → Val Tok → Val Tok
  | .list vs, v => .list (vs ++ [v])
  | w, _ => w

/-- Prepends a value to a list value, used by the tuple flattening of
`group`. -/
def Val.consL {Tok : Type} : Val Tok → Val Tok → Val Tok
  | v, .list vs => .list (v :: vs)
  | v, w => .pair v w

/-- Length of a list value (0 for other shapes). -/
def Val.vLen {Tok : Type} : Val Tok → Nat
  | .list vs => vs.length
  | _ => 0

/-- Modelled from the spec: the parse-time state reachable through the
input cursor: the cursor position, the mutable user state, the current
context and the emitted (non-fatal) errors. -/
structure PState (Tok : Type) where
  pos : Nat
  ust : Val Tok
  ctx : Val Tok
  emitted : List (ErrV Tok)
deriving Repr

/-- Modelled from the spec: `next` reads the token at the cursor, returning
the position at which it was read and advancing the cursor; at end of input
it returns `none` and leaves the cursor unchanged. -/
def inpNext {Tok : Type} (inp : List Tok) (s : PState Tok) :
    (Nat × Option Tok) × PState Tok :=
  match inp[s.pos]? with
  | some t => ((s.pos, some t), { s with pos := s.pos + 1 })
  | none => ((s.pos, none), s)

/-- Modelled from the spec: `rewind` restores a previously saved cursor
position; it does not undo user state, context or emitted errors. -/
def rewind {Tok : Type} (s : PState Tok) (p : Nat) : PState Tok :=
  { s with pos := p }

/-- Modelled from the spec: `span_since(start)` pairs the saved position
with the current cursor position. -/
def spanSince {Tok : Type} (before : Nat) (s : PState Tok) : Span :=
  (before, s.pos)

/-- Modelled from the spec: `emit` appends a non-fatal error to the sink on
the cursor. -/
def emitErr {Tok : Type} (s : PState Tok) (e : ErrV Tok) : PState Tok :=
  { s with emitted := s.emitted ++ [e] }

/-- The compile-time mode selector: `Emit` produces values, `Check`
discards them.  Modelled from the spec; the operations mirror the `Mode`
trait used by every combinator. -/
inductive Md where
  | emit
  | check
deriving Repr, DecidableEq

/-- The mode-dependent payload type: `Emit` keeps the value, `Check` keeps
only a zero-sized success marker. -/
@[reducible] def Pay (Tok : Type) : Md → Type
  | .emit => Val Tok
  | .check => Unit

/-- `Mode::bind`: run the thunk only in emit mode. -/
def Md.bind {Tok : Type} : (M : Md) → (Unit → Val Tok) → Pay Tok M
  | .emit, f => f ()
  | .check, _ => ()

/-- `Mode::map`: transform the payload only in emit mode. -/
def Md.map {Tok : Type} : (M : Md) → Pay Tok M → (Val Tok → Val Tok) → Pay Tok M
  | .emit, x, f => f x
  | .check, x, _ => x

/-- `Mode::combine`: combine two payloads only in emit mode. -/
def Md.combine {Tok : Type} :
    (M : Md) → Pay Tok M → Pay Tok M → (Val Tok → Val Tok → Val Tok) → Pay Tok M
  | .emit, a, b, f => f a b
  | .check, _, _, _ => ()

/-- The result of one parser invocation: a mode-dependent payload or a
located error (the Rust `PResult`). -/
abbrev PRes (Tok : Type) (M : Md) := Except (Located Tok) (Pay Tok M)

/-- A parser step: a function from parse state to result and new state;
`none` means the fuel of the caller ran out. -/
abbrev StepR (Tok : Type) (M : Md) :=
  PState Tok → Option (PRes Tok M × PState Tok)

section Primitives

variable {Tok : Type}

/-- Translated from `Empty::go` in src/src/zero_copy/primitive.rs. -/
def emptyGo (M : Md) (s : PState Tok) : PRes Tok M × PState Tok :=
  (.ok (Md.bind M fun _ => .unit), s)

/-- Translated from `End::go` in src/src/zero_copy/primitive.rs. -/
def endGo (inp : List Tok) (M : Md) (s : PState Tok) : PRes Tok M × PState Tok :=
  let before := s.pos
  match inpNext inp s with
  | ((_, none), s1) => (.ok (Md.bind M fun _ => .unit), s1)
  | ((at_, some t), s1) =>
    (.error ⟨at_, expectedFound [] (some t) (spanSince before s1)⟩, s1)

/-- Translated from `Any::go` in src/src/zero_copy/primitive.rs. -/
def anyGo (inp : List Tok) (M : Md) (s : PState Tok) : PRes Tok M × PState Tok :=
  let before := s.pos
  match inpNext inp s with
  | ((_, some t), s1) => (.ok (Md.bind M fun _ => .tok t), s1)
  | ((at_, none), s1) =>
    (.error ⟨at_, expectedFound [] none (spanSince before s1)⟩, s1)

/-- Translated from the token-matching loop of `Just::go_cfg` in
src/src/zero_copy/primitive.rs (run with the default configuration, so the
matched sequence is the parser's own). -/
def justLoop [DecidableEq Tok] (inp : List Tok) :
    List Tok → PState Tok → Except (Located Tok) Unit × PState Tok
  | [], s => (.ok (), s)
  | next :: items, s =>
    let before := s.pos
    match inpNext inp s with
    | ((at_, some t), s1) =>
      if t = next then justLoop inp items s1
      else (.error ⟨at_, expectedFound [some next] (some t) (spanSince before s1)⟩, s1)
    | ((at_, none), s1) =>
      (.error ⟨at_, expectedFound [some next] none (spanSince before s1)⟩, s1)

/-- Translated from `Just::go_cfg` in src/src/zero_copy/primitive.rs: on
full match the output is the configured sequence itself. -/
def justGo [DecidableEq Tok] (inp : List Tok) (seq : List Tok) (M : Md)
    (s : PState Tok) : PRes Tok M × PState Tok :=
  match justLoop inp seq s with
  | (.ok _, s1) => (.ok (Md.bind M fun _ => .list (seq.map .tok)), s1)
  | (.error e, s1) => (.error e, s1)

/-- Translated from `OneOf::go` in src/src/zero_copy/primitive.rs; on
mismatch the expected set is the whole configured sequence. -/
def oneOfGo [DecidableEq Tok] (inp : List Tok) (seq : List Tok) (M : Md)
    (s : PState Tok) : PRes Tok M × PState Tok :=
  let before := s.pos
  match inpNext inp s with
  | ((at_, some t), s1) =>
    if t ∈ seq then (.ok (Md.bind M fun _ => .tok t), s1)
    else (.error ⟨at_, expectedFound (seq.map some) (some t) (spanSince before s1)⟩, s1)
  | ((at_, none), s1) =>
    (.error ⟨at_, expectedFound (seq.map some) none (spanSince before s1)⟩, s1)

/-- Translated from `NoneOf::go` in src/src/zero_copy/primitive.rs. -/
def noneOfGo [DecidableEq Tok] (inp : List Tok) (seq : List Tok) (M : Md)
    (s : PState Tok) : PRes Tok M × PState Tok :=
  let before := s.pos
  match inpNext inp s with
  | ((at_, some t), s1) =>
    if t ∉ seq then (.ok (Md.bind M fun _ => .tok t), s1)
    else (.error ⟨at_, expectedFound [] (some t) (spanSince before s1)⟩, s1)
  | ((at_, none), s1) =>
    (.error ⟨at_, expectedFound [] none (spanSince before s1)⟩, s1)

/-- Translated from the loop of `TakeUntil::go` in
src/src/zero_copy/primitive.rs, with the container specialised to a list of
tokens (the `collect` configuration used by the documented examples). -/
def takeUntilLoop (inp : List Tok) {M : Md} (untilM : StepR Tok M) :
    Nat → Pay Tok M → PState Tok → Option (PRes Tok M × PState Tok)
  | 0, _, _ => none
  | fuel + 1, output, s =>
    let start := s.pos
    match untilM s with
    | none => none
    | some (.ok out, s1) =>
      some (.ok (Md.combine M output out (fun o t => .pair o t)), s1)
    | some (.error e, s1) =>
      let s2 := rewind s1 start
      match inpNext inp s2 with
      | ((_, some t), s3) =>
        takeUntilLoop inp untilM fuel (Md.map M output (fun o => o.push (.tok t))) s3
      | ((_, none), s3) => some (.error e, s3)

/-- Translated from `TakeUntil::go` in src/src/zero_copy/primitive.rs. -/
def takeUntilGo (inp : List Tok) {M : Md} (untilM : StepR Tok M) (fuel : Nat)
    (s : PState Tok) : Option (PRes Tok M × PState Tok) :=
  takeUntilLoop inp untilM fuel (Md.bind M fun _ => .list []) s

end Primitives

section Combinators

variable {Tok : Type} {M : Md}

/-- Translated from `Filter::go` in src/src/zero_copy/combinator.rs: the
inner parser always runs in emit mode so its output can be tested. -/
def filterGo (pE : StepR Tok .emit) (f : Val Tok → Bool) (M : Md)
    (s : PState Tok) : Option (PRes Tok M × PState Tok) :=
  let before := s.pos
  match pE s with
  | none => none
  | some (.error e, s1) => some (.error e, s1)
  | some (.ok out, s1) =>
    if f out then some (.ok (Md.bind M fun _ => out), s1)
    else some (.error ⟨s1.pos, expectedFound [] none (spanSince before s1)⟩, s1)

/-- Translated from `Map::go` in src/src/zero_copy/combinator.rs. -/
def mapGo (pM : StepR Tok M) (f : Val Tok → Val Tok) (s : PState Tok) :
    Option (PRes Tok M × PState Tok) :=
  match pM s with
  | none => none
  | some (.error e, s1) => some (.error e, s1)
  | some (.ok out, s1) => some (.ok (Md.map M out f), s1)

/-- Translated from `MapWithSpan::go` in src/src/zero_copy/combinator.rs. -/
def mapWithSpanGo (pM : StepR Tok M) (f : Val Tok → Span → Val Tok)
    (s : PState Tok) : Option (PRes Tok M × PState Tok) :=
  let before := s.pos
  match pM s with
  | none => none
  | some (.error e, s1) => some (.error e, s1)
  | some (.ok out, s1) =>
    some (.ok (Md.map M out (fun o => f o (spanSince before s1))), s1)

/-- Translated from `MapWithState::go` in src/src/zero_copy/combinator.rs:
the inner parser always runs in emit mode, and the mapper (which may mutate
the user state) runs inside `M::bind`, hence only in emit mode. -/
def mapWithStateGo (pE : StepR Tok .emit)
    (f : Val Tok → Span → Val Tok → Val Tok × Val Tok) (M : Md)
    (s : PState Tok) : Option (PRes Tok M × PState Tok) :=
  let before := s.pos
  match pE s with
  | none => none
  | some (.error e, s1) => some (.error e, s1)
  | some (.ok out, s1) =>
    match M with
    | .emit =>
      let (o, st) := f out (spanSince before s1) s1.ust
      some (.ok o, { s1 with ust := st })
    | .check => some (.ok (), s1)

/-- Translated from `TryMap::go` in src/src/zero_copy/combinator.rs: the
mapper runs in both modes (it decides success or failure). -/
def tryMapGo (pE : StepR Tok .emit)
    (f : Val Tok → Span → Except (ErrV Tok) (Val Tok)) (M : Md)
    (s : PState Tok) : Option (PRes Tok M × PState Tok) :=
  let before := s.pos
  match pE s with
  | none => none
  | some (.error e, s1) => some (.error e, s1)
  | some (.ok out, s1) =>
    match f out (spanSince before s1) with
    | .ok o => some (.ok (Md.bind M fun _ => o), s1)
    | .error e => some (.error ⟨s1.pos, e⟩, s1)

/-- Translated from `TryMapWithState::go` in
src/src/zero_copy/combinator.rs: the mapper runs (and may mutate the user
state) in both modes. -/
def tryMapWithStateGo (pE : StepR Tok .emit)
    (f : Val Tok → Span → Val Tok → Except (ErrV Tok) (Val Tok) × Val Tok)
    (M : Md) (s : PState Tok) : Option (PRes Tok M × PState Tok) :=
  let before := s.pos
  match pE s with
  | none => none
  | some (.error e, s1) => some (.error e, s1)
  | some (.ok out, s1) =>
    let (r, st) := f out (spanSince before s1) s1.ust
    let s2 := { s1 with ust := st }
    match r with
    | .ok o => some (.ok (Md.bind M fun _ => o), s2)
    | .error e => some (.error ⟨s2.pos, e⟩, s2)

/-- Translated from `To::go` in src/src/zero_copy/combinator.rs: the inner
parser runs in check mode. -/
def toGo (pC : StepR Tok .check) (v : Val Tok) (M : Md) (s : PState Tok) :
    Option (PRes Tok M × PState Tok) :=
  match pC s with
  | none => none
  | some (.error e, s1) => some (.error e, s1)
  | some (.ok _, s1) => some (.ok (Md.bind M fun _ => v), s1)

/-- Translated from `Ignored::go` in src/src/zero_copy/combinator.rs. -/
def ignoredGo (pC : StepR Tok .check) (M : Md) (s : PState Tok) :
    Option (PRes Tok M × PState Tok) :=
  match pC s with
  | none => none
  | some (.error e, s1) => some (.error e, s1)
  | some (.ok _, s1) => some (.ok (Md.bind M fun _ => .unit), s1)

/-- Translated from `Then::go` in src/src/zero_copy/combinator.rs. -/
def thenGo (aM bM : StepR Tok M) (s : PState Tok) :
    Option (PRes Tok M × PState Tok) :=
  match aM s with
  | none => none
  | some (.error e, s1) => some (.error e, s1)
  | some (.ok a, s1) =>
    match bM s1 with
    | none => none
    | some (.error e, s2) => some (.error e, s2)
    | some (.ok b, s2) =>
      some (.ok (Md.combine M a b (fun a b => .pair a b)), s2)

/-- Translated from `IgnoreThen::go` in src/src/zero_copy/combinator.rs:
the first parser runs in check mode. -/
def ignoreThenGo (aC : StepR Tok .check) (bM : StepR Tok M) (s : PState Tok) :
    Option (PRes Tok M × PState Tok) :=
  match aC s with
  | none => none
  | some (.error e, s1) => some (.error e, s1)
  | some (.ok _, s1) =>
    match bM s1 with
    | none => none
    | some (.error e, s2) => some (.error e, s2)
    | some (.ok b, s2) => some (.ok (Md.map M b (fun b => b)), s2)

/-- Translated from `ThenIgnore::go` in src/src/zero_copy/combinator.rs:
the second parser runs in check mode. -/
def thenIgnoreGo (aM : StepR Tok M) (bC : StepR Tok .check) (s : PState Tok) :
    Option (PRes Tok M × PState Tok) :=
  match aM s with
  | none => none
  | some (.error e, s1) => some (.error e, s1)
  | some (.ok a, s1) =>
    match bC s1 with
    | none => none
    | some (.error e, s2) => some (.error e, s2)
    | some (.ok _, s2) => some (.ok (Md.map M a (fun a => a)), s2)

/-- Translated from `ThenWithCtx::go` in src/src/zero_copy/combinator.rs:
the first parser runs in emit mode, the context for the second is computed
from its output, and `with_ctx` restores the outer context on return
(success or failure, as the spec requires of `with_ctx`). -/
def thenWithCtxGo (aE : StepR Tok .emit) (bM : StepR Tok M)
    (makeCtx : Val Tok → Val Tok → Val Tok) (s : PState Tok) :
    Option (PRes Tok M × PState Tok) :=
  match aE s with
  | none => none
  | some (.error e, s1) => some (.error e, s1)
  | some (.ok p1, s1) =>
    let c := makeCtx p1 s1.ctx
    match bM { s1 with ctx := c } with
    | none => none
    | some (r, s2) => some (r, { s2 with ctx := s1.ctx })

/-- Translated from `DelimitedBy::go` in src/src/zero_copy/combinator.rs:
delimiters run in check mode. -/
def delimitedByGo (startC : StepR Tok .check) (pM : StepR Tok M)
    (endC : StepR Tok .check) (s : PState Tok) :
    Option (PRes Tok M × PState Tok) :=
  match startC s with
  | none => none
  | some (.error e, s1) => some (.error e, s1)
  | some (.ok _, s1) =>
    match pM s1 with
    | none => none
    | some (.error e, s2) => some (.error e, s2)
    | some (.ok a, s2) =>
      match endC s2 with
      | none => none
      | some (.error e, s3) => some (.error e, s3)
      | some (.ok _, s3) => some (.ok a, s3)

/-- Translated from `PaddedBy::go` in src/src/zero_copy/combinator.rs. -/
def paddedByGo (padC : StepR Tok .check) (pM : StepR Tok M) (s : PState Tok) :
    Option (PRes Tok M × PState Tok) :=
  match padC s with
  | none => none
  | some (.error e, s1) => some (.error e, s1)
  | some (.ok _, s1) =>
    match pM s1 with
    | none => none
    | some (.error e, s2) => some (.error e, s2)
    | some (.ok a, s2) =>
      match padC s2 with
      | none => none
      | some (.error e, s3) => some (.error e, s3)
      | some (.ok _, s3) => some (.ok a, s3)

/-- Translated from `Or::go` in src/src/zero_copy/combinator.rs: on failure
of the first branch the cursor is rewound, and if both branches fail the
errors are prioritized and merged. -/
def orGo (aM bM : StepR Tok M) (s : PState Tok) :
    Option (PRes Tok M × PState Tok) :=
  let before := s.pos
  match aM s with
  | none => none
  | some (.ok out, s1) => some (.ok out, s1)
  | some (.error ea, s1) =>
    match bM (rewind s1 before) with
    | none => none
    | some (.ok out, s2) => some (.ok out, s2)
    | some (.error eb, s2) =>
      some (.error (ea.prioritize eb (fun a b => a.merge b)), s2)

/-- Translated from `RecoverWith::go` in src/src/zero_copy/combinator.rs:
on recovery the original error is emitted as non-fatal. -/
def recoverWithGo (pM fM : StepR Tok M) (s : PState Tok) :
    Option (PRes Tok M × PState Tok) :=
  let before := s.pos
  match pM s with
  | none => none
  | some (.ok out, s1) => some (.ok out, s1)
  | some (.error e, s1) =>
    match fM (rewind s1 before) with
    | none => none
    | some (.ok out, s2) => some (.ok out, emitErr s2 e.err)
    | some (.error _, s2) => some (.error e, s2)

/-- Translated from the loop of `Repeated::go_cfg` in
src/src/zero_copy/combinator.rs (the plain `go` runs `go_cfg` with the
default configuration, so the bounds are the parser's own fields). -/
def repLoop {M : Md} (pM : StepR Tok M) (atLeast : Nat) (atMost : Option Nat) :
    Nat → Nat → Pay Tok M → PState Tok → Option (PRes Tok M × PState Tok)
  | 0, _, _, _ => none
  | fuel + 1, count, output, s =>
    let before := s.pos
    match pM s with
    | none => none
    | some (.ok item, s1) =>
      let output := Md.combine M output item (fun o i => o.push i)
      let count := count + 1
      match atMost with
      | some m =>
        if count ≥ m then some (.ok output, s1)
        else repLoop pM atLeast atMost fuel count output s1
      | none => repLoop pM atLeast atMost fuel count output s1
    | some (.error e, s1) =>
      let s2 := rewind s1 before
      if count ≥ atLeast then some (.ok output, s2)
      else some (.error e, s2)

/-- Translated from `Repeated::go_cfg` in src/src/zero_copy/combinator.rs. -/
def repeatedGo {M : Md} (pM : StepR Tok M) (atLeast : Nat) (atMost : Option Nat)
    (fuel : Nat) (s : PState Tok) : Option (PRes Tok M × PState Tok) :=
  repLoop pM atLeast atMost fuel 0 (Md.bind M fun _ => .list []) s

/-- Translated from steps 3-5 (the main loop) of `SeparatedBy::go` in
src/src/zero_copy/combinator.rs.  A returned `.ok` means the loop broke and
the caller proceeds to the trailing-separator step; a returned `.error`
aborts the whole parser. -/
def sepLoop {M : Md} (pM : StepR Tok M) (sepC : StepR Tok .check)
    (atLeast : Nat) (atMost : Option Nat) :
    Nat → Nat → Pay Tok M → PState Tok → Option (PRes Tok M × PState Tok)
  | 0, _, _, _ => none
  | fuel + 1, count, output, s =>
    let beforeSeparator := s.pos
    match sepC s with
    | none => none
    | some (.error e, s1) =>
      if count < atLeast then some (.error e, rewind s1 beforeSeparator)
      else some (.ok output, rewind s1 beforeSeparator)
    | some (.ok _, s1) =>
      match pM s1 with
      | none => none
      | some (.ok item, s2) =>
        let output := Md.combine M output item (fun o i => o.push i)
        let count := count + 1
        match atMost with
        | some m =>
          if count ≥ m then some (.ok output, s2)
          else sepLoop pM sepC atLeast atMost fuel count output s2
        | none => sepLoop pM sepC atLeast atMost fuel count output s2
      | some (.error e, s2) =>
        if count < atLeast then some (.error e, rewind s2 beforeSeparator)
        else some (.ok output, rewind s2 beforeSeparator)

/-- Translated from steps 1 and 6 of `SeparatedBy::go` in
src/src/zero_copy/combinator.rs: attempt the separator in check mode and
rewind on failure (used when a leading or trailing separator is allowed). -/
def sepOptional (sepC : StepR Tok .check) (allow : Bool) (s : PState Tok) :
    Option (PState Tok) :=
  if allow then
    match sepC s with
    | none => none
    | some (.error _, s1) => some (rewind s1 s.pos)
    | some (.ok _, s1) => some s1
  else some s

/-- Translated from `SeparatedBy::go` in src/src/zero_copy/combinator.rs
(steps 1, 2, the loop, 6 and 7). -/
def sepByGo {M : Md} (pM : StepR Tok M) (sepC : StepR Tok .check)
    (atLeast : Nat) (atMost : Option Nat)
    (allowLeading allowTrailing : Bool) (fuel : Nat) (s : PState Tok) :
    Option (PRes Tok M × PState Tok) :=
  -- Step 1
  match sepOptional sepC allowLeading s with
  | none => none
  | some s =>
    -- Step 2
    let before := s.pos
    let output0 : Pay Tok M := Md.bind M fun _ => .list []
    match pM s with
    | none => none
    | some (.error err, s1) =>
      if atLeast == 0 then some (.ok output0, rewind s1 before)
      else some (.error err, rewind s1 before)
    | some (.ok item, s1) =>
      let output := Md.combine M output0 item (fun o i => o.push i)
      -- Steps 3-5
      match sepLoop pM sepC atLeast atMost fuel 1 output s1 with
      | none => none
      | some (.error e, s2) => some (.error e, s2)
      | some (.ok output, s2) =>
        -- Step 6
        match sepOptional sepC allowTrailing s2 with
        | none => none
        | some s3 => some (.ok output, s3)

/-- Translated from `OrNot::go` in src/src/zero_copy/combinator.rs. -/
def orNotGo (pM : StepR Tok M) (s : PState Tok) :
    Option (PRes Tok M × PState Tok) :=
  let before := s.pos
  match pM s with
  | none => none
  | some (.ok o, s1) => some (.ok (Md.map M o (fun v => .opt (some v))), s1)
  | some (.error _, s1) =>
    some (.ok (Md.bind M fun _ => .opt none), rewind s1 before)

/-- Translated from `Not::go` in src/src/zero_copy/combinator.rs: the inner
parser runs in check mode, the cursor is rewound, and on inner success one
token is read to report it as unexpected. -/
def notGo (inp : List Tok) (pC : StepR Tok .check) (M : Md) (s : PState Tok) :
    Option (PRes Tok M × PState Tok) :=
  let before := s.pos
  match pC s with
  | none => none
  | some (result, s1) =>
    let s2 := rewind s1 before
    match result with
    | .ok _ =>
      match inpNext inp s2 with
      | ((at_, t), s3) =>
        some (.error ⟨at_, expectedFound [] t (spanSince before s3)⟩, s3)
    | .error _ => some (.ok (Md.bind M fun _ => .unit), s2)

/-- Translated from `AndIs::go` in src/src/zero_copy/combinator.rs. -/
def andIsGo (aM : StepR Tok M) (bC : StepR Tok .check) (s : PState Tok) :
    Option (PRes Tok M × PState Tok) :=
  let before := s.pos
  match aM s with
  | none => none
  | some (.error e, s1) => some (.error e, rewind s1 before)
  | some (.ok out, s1) =>
    let after := s1.pos
    match bC (rewind s1 before) with
    | none => none
    | some (.ok _, s2) => some (.ok out, rewind s2 after)
    | some (.error e, s2) => some (.error e, rewind s2 before)

/-- Translated from `Foldr::go` in src/src/zero_copy/combinator.rs; the
inner parser yields a pair of an iterable and an initial value. -/
def foldrGo (pM : StepR Tok M) (f : Val Tok → Val Tok → Val Tok)
    (s : PState Tok) : Option (PRes Tok M × PState Tok) :=
  match pM s with
  | none => none
  | some (.error e, s1) => some (.error e, s1)
  | some (.ok out, s1) =>
    some (.ok (Md.map M out (fun o =>
      match o with
      | .pair (.list ts) b => ts.foldr f b
      | v => v)), s1)

/-- Translated from `Foldl::go` in src/src/zero_copy/combinator.rs. -/
def foldlGo (pM : StepR Tok M) (f : Val Tok → Val Tok → Val Tok)
    (s : PState Tok) : Option (PRes Tok M × PState Tok) :=
  match pM s with
  | none => none
  | some (.error e, s1) => some (.error e, s1)
  | some (.ok out, s1) =>
    some (.ok (Md.map M out (fun o =>
      match o with
      | .pair h (.list ts) => ts.foldl f h
      | v => v)), s1)

/-- Translated from `Rewind::go` in src/src/zero_copy/combinator.rs: on
success the pre-entry cursor is restored; on failure the error (and the
cursor of the failed attempt) propagate unchanged. -/
def rewindGo (pM : StepR Tok M) (s : PState Tok) :
    Option (PRes Tok M × PState Tok) :=
  let before := s.pos
  match pM s with
  | none => none
  | some (.ok o, s1) => some (.ok o, rewind s1 before)
  | some (.error e, s1) => some (.error e, s1)

/-- Translated from `MapErr::go` in src/src/zero_copy/combinator.rs. -/
def mapErrGo (pM : StepR Tok M) (f : ErrV Tok → ErrV Tok) (s : PState Tok) :
    Option (PRes Tok M × PState Tok) :=
  match pM s with
  | none => none
  | some (.ok o, s1) => some (.ok o, s1)
  | some (.error e, s1) => some (.error ⟨e.pos, f e.err⟩, s1)

/-- Translated from `MapErrWithSpan::go` in src/src/zero_copy/combinator.rs. -/
def mapErrWithSpanGo (pM : StepR Tok M) (f : ErrV Tok → Span → ErrV Tok)
    (s : PState Tok) : Option (PRes Tok M × PState Tok) :=
  let start := s.pos
  match pM s with
  | none => none
  | some (.ok o, s1) => some (.ok o, s1)
  | some (.error e, s1) =>
    some (.error ⟨e.pos, f e.err (spanSince start s1)⟩, s1)

/-- Translated from `MapErrWithState::go` in
src/src/zero_copy/combinator.rs; the mapper may mutate the user state and
runs in both modes. -/
def mapErrWithStateGo (pM : StepR Tok M)
    (f : ErrV Tok → Span → Val Tok → ErrV Tok × Val Tok) (s : PState Tok) :
    Option (PRes Tok M × PState Tok) :=
  let start := s.pos
  match pM s with
  | none => none
  | some (.ok o, s1) => some (.ok o, s1)
  | some (.error e, s1) =>
    let (e2, st) := f e.err (spanSince start s1) s1.ust
    some (.error ⟨e.pos, e2⟩, { s1 with ust := st })

/-- Translated from `Validate::go` in src/src/zero_copy/combinator.rs: the
inner parser runs in emit mode and the validator (with its emitted errors)
runs in both modes. -/
def validateGo (pE : StepR Tok .emit)
    (f : Val Tok → Span → Val Tok × List (ErrV Tok)) (M : Md)
    (s : PState Tok) : Option (PRes Tok M × PState Tok) :=
  let before := s.pos
  match pE s with
  | none => none
  | some (.error e, s1) => some (.error e, s1)
  | some (.ok out, s1) =>
    let (o, errs) := f out (spanSince before s1)
    some (.ok (Md.bind M fun _ => o), { s1 with emitted := s1.emitted ++ errs })

/-- Translated from `OrElse::go` in src/src/zero_copy/combinator.rs: no
save or rewind at all; on recovery the cursor stays where the failed run
left it, and a rethrown error keeps the original position. -/
def orElseGo (pM : StepR Tok M) (f : ErrV Tok → Except (ErrV Tok) (Val Tok))
    (s : PState Tok) : Option (PRes Tok M × PState Tok) :=
  match pM s with
  | none => none
  | some (.ok o, s1) => some (.ok o, s1)
  | some (.error err, s1) =>
    match f err.err with
    | .error e => some (.error ⟨err.pos, e⟩, s1)
    | .ok out => some (.ok (Md.bind M fun _ => out), s1)

/-- Translated from `Slice::go` in src/src/zero_copy/combinator.rs: the
inner parser runs in check mode and the output is the input slice between
the pre- and post-positions. -/
def sliceGo (inp : List Tok) (pC : StepR Tok .check) (M : Md) (s : PState Tok) :
    Option (PRes Tok M × PState Tok) :=
  let before := s.pos
  match pC s with
  | none => none
  | some (.error e, s1) => some (.error e, s1)
  | some (.ok _, s1) =>
    some (.ok (Md.bind M fun _ =>
      .list (((inp.take s1.pos).drop before).map .tok)), s1)

/-- Translated from `MapSlice::go` in src/src/zero_copy/combinator.rs. -/
def mapSliceGo (inp : List Tok) (pC : StepR Tok .check)
    (f : List Tok → Val Tok) (M : Md) (s : PState Tok) :
    Option (PRes Tok M × PState Tok) :=
  let before := s.pos
  match pC s with
  | none => none
  | some (.error e, s1) => some (.error e, s1)
  | some (.ok _, s1) =>
    some (.ok (Md.bind M fun _ => f ((inp.take s1.pos).drop before)), s1)

/-- Translated from the macro-generated `Choice::go` in
src/src/zero_copy/primitive.rs: the branch list is iterated, the cursor is
rewound after each failure, and failures are prioritized and merged. -/
def choiceLoop {α : Type} {M : Md} (stepOf : α → StepR Tok M) (before : Nat)
    (acc : Option (Located Tok)) :
    List α → PState Tok → Option (PRes Tok M × PState Tok)
  | [], s =>
    some (.error (acc.getD ⟨s.pos, expectedFound [] none (spanSince before s)⟩), s)
  | q :: rest, s =>
    match stepOf q s with
    | none => none
    | some (.ok out, s1) => some (.ok out, s1)
    | some (.error e, s1) =>
      let acc := some (match acc with
        | some err => err.prioritize e (fun a b => a.merge b)
        | none => e)
      choiceLoop stepOf before acc rest (rewind s1 before)

/-- Translated from `Choice::go` in src/src/zero_copy/primitive.rs. -/
def choiceGo {α : Type} {M : Md} (stepOf : α → StepR Tok M) (qs : List α)
    (s : PState Tok) : Option (PRes Tok M × PState Tok) :=
  choiceLoop stepOf s.pos none qs s

/-- Translated from the macro-generated `Group::go` in
src/src/zero_copy/primitive.rs: all parsers run in order and the flattened
tuple of outputs (here: a list) is produced. -/
def groupLoop {α : Type} {M : Md} (stepOf : α → StepR Tok M) :
    List α → PState Tok → Option (PRes Tok M × PState Tok)
  | [], s => some (.ok (Md.bind M fun _ => .list []), s)
  | q :: rest, s =>
    match stepOf q s with
    | none => none
    | some (.error e, s1) => some (.error e, s1)
    | some (.ok o, s1) =>
      match groupLoop stepOf rest s1 with
      | none => none
      | some (.error e, s2) => some (.error e, s2)
      | some (.ok os, s2) =>
        some (.ok (Md.combine M o os (fun v vs => v.consL vs)), s2)

end Combinators

section RecursiveCell

/-- Translated from the custom `OnceCell::set` in src/src/recursive.rs: the
write `*self.0.try_borrow_mut().map_err(|_| ())? = Some(x)` fails only when
the inner `RefCell` is currently borrowed; otherwise it overwrites whatever
the cell holds and returns `Ok(())`.  The `borrowed` flag models whether a
`get` borrow is outstanding at the moment of the call. -/
def OnceCell.set {α : Type} (borrowed : Bool) (_cell : Option α) (x : α) :
    Except Unit (Option α) :=
  if borrowed then .error () else .ok (some x)

/-- Outcome of `Recursive::define`: either the new cell contents, or a
panic with the given message. -/
inductive DefineResult (α : Type) where
  | ok : Option α → DefineResult α
  | fatal : String → DefineResult α
deriving Repr, DecidableEq

/-- Translated from `Recursive::define` in src/src/recursive.rs: it calls
`OnceCell::set` and panics with "Parser defined more than once" only when
`set` returns an error.  In straight-line use (declare, then define one or
more times) no borrow is outstanding, so `borrowed = false`. -/
def Recursive.define {α : Type} (borrowed : Bool) (cell : Option α) (p : α) :
    DefineResult α :=
  match OnceCell.set borrowed cell p with
  | .ok c => .ok c
  | .error _ => .fatal "Parser defined more than once"

end RecursiveCell

section DeepEmbedding

/-- Deep embedding of the parsers built from the zero-copy primitives and
combinators of the repository; one constructor per Rust parser struct,
carrying the same configuration fields. -/
inductive PE (Tok : Type) : Type where
  | end' : PE Tok
  | empty : PE Tok
  | just : List Tok → PE Tok
  | oneOf : List Tok → PE Tok
  | noneOf : List Tok → PE Tok
  | any : PE Tok
  | takeUntil : PE Tok → PE Tok
  | filter : PE Tok → (Val Tok → Bool) → PE Tok
  | map : PE Tok → (Val Tok → Val Tok) → PE Tok
  | mapWithSpan : PE Tok → (Val Tok → Span → Val Tok) → PE Tok
  | mapWithState : PE Tok → (Val Tok → Span → Val Tok → Val Tok × Val Tok) → PE Tok
  | tryMap : PE Tok → (Val Tok → Span → Except (ErrV Tok) (Val Tok)) → PE Tok
  | tryMapWithState :
      PE Tok → (Val Tok → Span → Val Tok → Except (ErrV Tok) (Val Tok) × Val Tok) → PE Tok
  | to : PE Tok → Val Tok → PE Tok
  | ignored : PE Tok → PE Tok
  | then' : PE Tok → PE Tok → PE Tok
  | ignoreThen : PE Tok → PE Tok → PE Tok
  | thenIgnore : PE Tok → PE Tok → PE Tok
  | thenWithCtx : PE Tok → PE Tok → (Val Tok → Val Tok → Val Tok) → PE Tok
  | delimitedBy : PE Tok → PE Tok → PE Tok → PE Tok
  | paddedBy : PE Tok → PE Tok → PE Tok
  | or : PE Tok → PE Tok → PE Tok
  | recoverWith : PE Tok → PE Tok → PE Tok
  | repeated : PE Tok → Nat → Option Nat → PE Tok
  | separatedBy : PE Tok → PE Tok → Nat → Option Nat → Bool → Bool → PE Tok
  | orNot : PE Tok → PE Tok
  | not : PE Tok → PE Tok
  | andIs : PE Tok → PE Tok → PE Tok
  | foldr : PE Tok → (Val Tok → Val Tok → Val Tok) → PE Tok
  | foldl : PE Tok → (Val Tok → Val Tok → Val Tok) → PE Tok
  | rewindP : PE Tok → PE Tok
  | mapErr : PE Tok → (ErrV Tok → ErrV Tok) → PE Tok
  | mapErrWithSpan : PE Tok → (ErrV Tok → Span → ErrV Tok) → PE Tok
  | mapErrWithState : PE Tok → (ErrV Tok → Span → Val Tok → ErrV Tok × Val Tok) → PE Tok
  | validate : PE Tok → (Val Tok → Span → Val Tok × List (ErrV Tok)) → PE Tok
  | orElse : PE Tok → (ErrV Tok → Except (ErrV Tok) (Val Tok)) → PE Tok
  | slice : PE Tok → PE Tok
  | mapSlice : PE Tok → (List Tok → Val Tok) → PE Tok
  | choice : List (PE Tok) → PE Tok
  | group : List (PE Tok) → PE Tok

/-- The parser interpreter: ties the per-combinator step functions together.
Each recursive invocation consumes one unit of fuel, mirroring the uniform
invocation protocol of the `Parser::go` trait method; `none` means the fuel
was insufficient. -/
def go {Tok : Type} [DecidableEq Tok] :
    Nat → (M : Md) → PE Tok → List Tok → PState Tok →
      Option (PRes Tok M × PState Tok)
  | 0, _, _, _, _ => none
  | fuel + 1, M, p, inp, s =>
    match p with
    | .end' => some (endGo inp M s)
    | .empty => some (emptyGo M s)
    | .just seq => some (justGo inp seq M s)
    | .oneOf seq => some (oneOfGo inp seq M s)
    | .noneOf seq => some (noneOfGo inp seq M s)
    | .any => some (anyGo inp M s)
    | .takeUntil p => takeUntilGo inp (fun s => go fuel M p inp s) fuel s
    | .filter p f => filterGo (fun s => go fuel .emit p inp s) f M s
    | .map p f => mapGo (fun s => go fuel M p inp s) f s
    | .mapWithSpan p f => mapWithSpanGo (fun s => go fuel M p inp s) f s
    | .mapWithState p f => mapWithStateGo (fun s => go fuel .emit p inp s) f M s
    | .tryMap p f => tryMapGo (fun s => go fuel .emit p inp s) f M s
    | .tryMapWithState p f => tryMapWithStateGo (fun s => go fuel .emit p inp s) f M s
    | .to p v => toGo (fun s => go fuel .check p inp s) v M s
    | .ignored p => ignoredGo (fun s => go fuel .check p inp s) M s
    | .then' a b => thenGo (fun s => go fuel M a inp s) (fun s => go fuel M b inp s) s
    | .ignoreThen a b =>
      ignoreThenGo (fun s => go fuel .check a inp s) (fun s => go fuel M b inp s) s
    | .thenIgnore a b =>
      thenIgnoreGo (fun s => go fuel M a inp s) (fun s => go fuel .check b inp s) s
    | .thenWithCtx a b f =>
      thenWithCtxGo (fun s => go fuel .emit a inp s) (fun s => go fuel M b inp s) f s
    | .delimitedBy p b c =>
      delimitedByGo (fun s => go fuel .check b inp s) (fun s => go fuel M p inp s)
        (fun s => go fuel .check c inp s) s
    | .paddedBy p pad =>
      paddedByGo (fun s => go fuel .check pad inp s) (fun s => go fuel M p inp s) s
    | .or a b => orGo (fun s => go fuel M a inp s) (fun s => go fuel M b inp s) s
    | .recoverWith p f =>
      recoverWithGo (fun s => go fuel M p inp s) (fun s => go fuel M f inp s) s
    | .repeated p atLeast atMost =>
      repeatedGo (fun s => go fuel M p inp s) atLeast atMost fuel s
    | .separatedBy p sep atLeast atMost allowLeading allowTrailing =>
      sepByGo (fun s => go fuel M p inp s) (fun s => go fuel .check sep inp s)
        atLeast atMost allowLeading allowTrailing fuel s
    | .orNot p => orNotGo (fun s => go fuel M p inp s) s
    | .not p => notGo inp (fun s => go fuel .check p inp s) M s
    | .andIs a b =>
      andIsGo (fun s => go fuel M a inp s) (fun s => go fuel .check b inp s) s
    | .foldr p f => foldrGo (fun s => go fuel M p inp s) f s
    | .foldl p f => foldlGo (fun s => go fuel M p inp s) f s
    | .rewindP p => rewindGo (fun s => go fuel M p inp s) s
    | .mapErr p f => mapErrGo (fun s => go fuel M p inp s) f s
    | .mapErrWithSpan p f => mapErrWithSpanGo (fun s => go fuel M p inp s) f s
    | .mapErrWithState p f => mapErrWithStateGo (fun s => go fuel M p inp s) f s
    | .validate p f => validateGo (fun s => go fuel .emit p inp s) f M s
    | .orElse p f => orElseGo (fun s => go fuel M p inp s) f s
    | .slice p => sliceGo inp (fun s => go fuel .check p inp s) M s
    | .mapSlice p f => mapSliceGo inp (fun s => go fuel .check p inp s) f M s
    | .choice ps => choiceGo (fun q s => go fuel M q inp s) ps s
    | .group ps => groupLoop (fun q s => go fuel M q inp s) ps s

/-- The initial parse state used by the driver: cursor at the origin, unit
user state and context, no emitted errors. -/
def st0 {Tok : Type} : PState Tok :=
  ⟨0, .unit, .unit, []⟩

end DeepEmbedding

section ConcreteExamples

/-- Checks whether a value is the literal `.nat 1`; used by the concrete
mode-divergence example. -/
def Val.isNatOne {Tok : Type} : Val Tok → Bool
  | .nat 1 => true
  | _ => false

/-- A parser whose emit-mode and check-mode runs disagree: its
`map_with_state` writes the user state through `M::bind` (so only in emit
mode), and the following `try_map_with_state` fails exactly when the state
was written. -/
def pCex : PE Char :=
  .then' (.mapWithState .empty (fun _ _ _ => (.unit, .nat 1)))
    (.tryMapWithState .empty (fun _ _ st =>
      (if Val.isNatOne st then .error (expectedFound [] none (0, 0))
       else .ok .unit, st)))

end ConcreteExamples

section ModeRelations

/-- Relates an emit-mode run to a check-mode run: both ran out of fuel, or
both succeeded with identical final states, or both failed with identical
errors and identical final states.  Only the presence of the output value
may differ. -/
def ORel {Tok : Type} (x : Option (PRes Tok .emit × PState Tok))
    (y : Option (PRes Tok .check × PState Tok)) : Prop :=
  match x, y with
  | none, none => True
  | some (.ok _, se), some (.ok _, sc) => se = sc
  | some (.error e, se), some (.error f, sc) => e = f ∧ se = sc
  | _, _ => False

/-- Pointwise lifting of `ORel` to parser steps. -/
def SRel {Tok : Type} (f : StepR Tok .emit) (g : StepR Tok .check) : Prop :=
  ∀ s, ORel (f s) (g s)

/-- The parsers that avoid `map_with_state` (the one combinator whose
mode-gated thunk mutates the user state). -/
inductive NoMWS {Tok : Type} : PE Tok → Prop where
  | end' : NoMWS .end'
  | empty : NoMWS .empty
  | just (seq : List Tok) : NoMWS (.just seq)
  | oneOf (seq : List Tok) : NoMWS (.oneOf seq)
  | noneOf (seq : List Tok) : NoMWS (.noneOf seq)
  | any : NoMWS .any
  | takeUntil {p} : NoMWS p → NoMWS (.takeUntil p)
  | filter {p} (f) : NoMWS (.filter p f)
  | map {p f} : NoMWS p → NoMWS (.map p f)
  | mapWithSpan {p f} : NoMWS p → NoMWS (.mapWithSpan p f)
  | tryMap {p} (f) : NoMWS (.tryMap p f)
  | tryMapWithState {p} (f) : NoMWS (.tryMapWithState p f)
  | toV {p} (v) : NoMWS (.to p v)
  | ignored {p} : NoMWS (.ignored p)
  | then' {a b} : NoMWS a → NoMWS b → NoMWS (.then' a b)
  | ignoreThen {a b} : NoMWS b → NoMWS (.ignoreThen a b)
  | thenIgnore {a b} : NoMWS a → NoMWS (.thenIgnore a b)
  | thenWithCtx {a b f} : NoMWS b → NoMWS (.thenWithCtx a b f)
  | delimitedBy {p b c} : NoMWS p → NoMWS (.delimitedBy p b c)
  | paddedBy {p pad} : NoMWS p → NoMWS (.paddedBy p pad)
  | or {a b} : NoMWS a → NoMWS b → NoMWS (.or a b)
  | recoverWith {p f} : NoMWS p → NoMWS f → NoMWS (.recoverWith p f)
  | repeated {p} (atLeast atMost) : NoMWS p → NoMWS (.repeated p atLeast atMost)
  | separatedBy {p sep} (atLeast atMost allowLeading allowTrailing) :
      NoMWS p → NoMWS (.separatedBy p sep atLeast atMost allowLeading allowTrailing)
  | orNot {p} : NoMWS p → NoMWS (.orNot p)
  | not {p} : NoMWS (.not p)
  | andIs {a b} : NoMWS a → NoMWS (.andIs a b)
  | foldr {p f} : NoMWS p → NoMWS (.foldr p f)
  | foldl {p f} : NoMWS p → NoMWS (.foldl p f)
  | rewindP {p} : NoMWS p → NoMWS (.rewindP p)
  | mapErr {p f} : NoMWS p → NoMWS (.mapErr p f)
  | mapErrWithSpan {p f} : NoMWS p → NoMWS (.mapErrWithSpan p f)
  | mapErrWithState {p f} : NoMWS p → NoMWS (.mapErrWithState p f)
  | validate {p} (f) : NoMWS (.validate p f)
  | orElse {p f} : NoMWS p → NoMWS (.orElse p f)
  | slice {p} : NoMWS (.slice p)
  | mapSlice {p} (f) : NoMWS (.mapSlice p f)
  | choice {ps} : (∀ q ∈ ps, NoMWS q) → NoMWS (.choice ps)
  | group {ps} : (∀ q ∈ ps, NoMWS q) → NoMWS (.group ps)

end ModeRelations

section ModeLemmas

variable {Tok : Type}

theorem ORel.cases {x : Option (PRes Tok .emit × PState Tok)}
    {y : Option (PRes Tok .check × PState Tok)} (h : ORel x y) :
    (x = none ∧ y = none) ∨
    (∃ v s, x = some (.ok v, s) ∧ y = some (.ok (), s)) ∨
    (∃ e s, x = some (.error e, s) ∧ y = some (.error e, s)) := by
  match x, y with
  | none, none => exact .inl ⟨rfl, rfl⟩
  | some (.ok v, se), some (.ok u, sc) =>
    exact .inr (.inl ⟨v, se, rfl, by cases h; rfl⟩)
  | some (.error e, se), some (.error f, sc) =>
    obtain ⟨h1, h2⟩ := h
    exact .inr (.inr ⟨e, se, rfl, by rw [h1, h2]⟩)
  | none, some (.ok _, _) => exact absurd h (by simp [ORel])
  | none, some (.error _, _) => exact absurd h (by simp [ORel])
  | some (.ok _, _), none => exact absurd h (by simp [ORel])
  | some (.error _, _), none => exact absurd h (by simp [ORel])
  | some (.ok _, _), some (.error _, _) => exact absurd h (by simp [ORel])
  | some (.error _, _), some (.ok _, _) => exact absurd h (by simp [ORel])

theorem ORel.none : ORel (none : Option (PRes Tok .emit × PState Tok)) none := by simp [ORel]

theorem ORel.ok {v : Val Tok} {s : PState Tok} :
    ORel (some (.ok v, s)) (some (.ok (), s)) := by simp [ORel]

theorem ORel.err {e : Located Tok} {s : PState Tok} :
    ORel (some (.error e, s)) (some (.error e, s)) := by simp [ORel]

theorem endGo_rel (inp : List Tok) (s : PState Tok) :
    ORel (some (endGo inp .emit s)) (some (endGo inp .check s)) := by
  unfold endGo
  rcases hn : inpNext inp s with ⟨⟨a, _ | t⟩, s1⟩ <;> simp [hn, ORel]

theorem emptyGo_rel (s : PState Tok) :
    ORel (some (emptyGo .emit (s : PState Tok))) (some (emptyGo .check s)) := by
  simp [emptyGo, ORel]

theorem anyGo_rel (inp : List Tok) (s : PState Tok) :
    ORel (some (anyGo inp .emit s)) (some (anyGo inp .check s)) := by
  unfold anyGo
  rcases hn : inpNext inp s with ⟨⟨a, _ | t⟩, s1⟩ <;> simp [hn, ORel]

theorem justGo_rel [DecidableEq Tok] (inp seq : List Tok) (s : PState Tok) :
    ORel (some (justGo inp seq .emit s)) (some (justGo inp seq .check s)) := by
  unfold justGo
  rcases hn : justLoop inp seq s with ⟨_ | e, s1⟩ <;> simp [hn, ORel]

theorem oneOfGo_rel [DecidableEq Tok] (inp seq : List Tok) (s : PState Tok) :
    ORel (some (oneOfGo inp seq .emit s)) (some (oneOfGo inp seq .check s)) := by
  unfold oneOfGo
  rcases hn : inpNext inp s with ⟨⟨a, _ | t⟩, s1⟩ <;> simp [hn, ORel]
  by_cases ht : t ∈ seq <;> simp [ht, ORel]

theorem noneOfGo_rel [DecidableEq Tok] (inp seq : List Tok) (s : PState Tok) :
    ORel (some (noneOfGo inp seq .emit s)) (some (noneOfGo inp seq .check s)) := by
  unfold noneOfGo
  rcases hn : inpNext inp s with ⟨⟨a, _ | t⟩, s1⟩ <;> simp [hn, ORel]
  by_cases ht : t ∈ seq <;> simp [ht, ORel]

end ModeLemmas

section ModeLemmas2

variable {Tok : Type}

theorem filterGo_rel (pE : StepR Tok .emit) (f : Val Tok → Bool)
    (s : PState Tok) : ORel (filterGo pE f .emit s) (filterGo pE f .check s) := by
  unfold filterGo
  rcases hx : pE s with _ | ⟨r, s1⟩
  · simp [ORel]
  · rcases r with e | v
    · simp [ORel]
    · cases hf : f v <;> simp [hf, ORel]

theorem mapGo_rel {pE : StepR Tok .emit} {pC : StepR Tok .check}
    (hp : SRel pE pC) (f : Val Tok → Val Tok) :
    SRel (mapGo pE f) (mapGo pC f) := by
  intro s
  rcases ORel.cases (hp s) with ⟨hx, hy⟩ | ⟨v, s1, hx, hy⟩ | ⟨e, s1, hx, hy⟩ <;>
    simp [mapGo, hx, hy, ORel]

theorem mapWithSpanGo_rel {pE : StepR Tok .emit} {pC : StepR Tok .check}
    (hp : SRel pE pC) (f : Val Tok → Span → Val Tok) :
    SRel (mapWithSpanGo pE f) (mapWithSpanGo pC f) := by
  intro s
  rcases ORel.cases (hp s) with ⟨hx, hy⟩ | ⟨v, s1, hx, hy⟩ | ⟨e, s1, hx, hy⟩ <;>
    simp [mapWithSpanGo, hx, hy, ORel]

theorem tryMapGo_rel (pE : StepR Tok .emit)
    (f : Val Tok → Span → Except (ErrV Tok) (Val Tok)) (s : PState Tok) :
    ORel (tryMapGo pE f .emit s) (tryMapGo pE f .check s) := by
  unfold tryMapGo
  rcases hx : pE s with _ | ⟨r, s1⟩
  · simp [ORel]
  · rcases r with e | v
    · simp [ORel]
    · rcases hf : f v (spanSince s.pos s1) with e2 | o <;> simp [hf, ORel]

theorem tryMapWithStateGo_rel (pE : StepR Tok .emit)
    (f : Val Tok → Span → Val Tok → Except (ErrV Tok) (Val Tok) × Val Tok)
    (s : PState Tok) :
    ORel (tryMapWithStateGo pE f .emit s) (tryMapWithStateGo pE f .check s) := by
  unfold tryMapWithStateGo
  rcases hx : pE s with _ | ⟨r, s1⟩
  · simp [ORel]
  · rcases r with e | v
    · simp [ORel]
    · rcases hf : f v (spanSince s.pos s1) s1.ust with ⟨e2 | o, st⟩ <;>
        simp [hf, ORel]

theorem toGo_rel (pC : StepR Tok .check) (v : Val Tok) (s : PState Tok) :
    ORel (toGo pC v .emit s) (toGo pC v .check s) := by
  unfold toGo
  rcases hx : pC s with _ | ⟨r, s1⟩
  · simp [ORel]
  · rcases r with e | u <;> simp [ORel]

theorem ignoredGo_rel (pC : StepR Tok .check) (s : PState Tok) :
    ORel (ignoredGo pC .emit s) (ignoredGo pC .check s) := by
  unfold ignoredGo
  rcases hx : pC s with _ | ⟨r, s1⟩
  · simp [ORel]
  · rcases r with e | u <;> simp [ORel]

theorem thenGo_rel {aE bE : StepR Tok .emit} {aC bC : StepR Tok .check}
    (ha : SRel aE aC) (hb : SRel bE bC) :
    SRel (thenGo aE bE) (thenGo aC bC) := by
  intro s
  rcases ORel.cases (ha s) with ⟨hx, hy⟩ | ⟨v, s1, hx, hy⟩ | ⟨e, s1, hx, hy⟩ <;>
    simp only [thenGo, hx, hy]
  · exact ORel.none
  · rcases ORel.cases (hb s1) with ⟨hx2, hy2⟩ | ⟨v2, s2, hx2, hy2⟩ |
      ⟨e2, s2, hx2, hy2⟩ <;> simp [hx2, hy2, ORel]
  · exact ORel.err

theorem ignoreThenGo_rel (aC : StepR Tok .check) {bE : StepR Tok .emit}
    {bC : StepR Tok .check} (hb : SRel bE bC) :
    SRel (ignoreThenGo aC bE) (ignoreThenGo aC bC) := by
  intro s
  rcases hx : aC s with _ | ⟨r, s1⟩
  · simp only [ignoreThenGo, hx]; exact ORel.none
  · rcases r with e | u
    · simp only [ignoreThenGo, hx]; exact ORel.err
    · simp only [ignoreThenGo, hx]
      rcases ORel.cases (hb s1) with ⟨hx2, hy2⟩ | ⟨v2, s2, hx2, hy2⟩ |
        ⟨e2, s2, hx2, hy2⟩ <;> simp [hx2, hy2, ORel]

theorem thenIgnoreGo_rel {aE : StepR Tok .emit} {aC : StepR Tok .check}
    (ha : SRel aE aC) (bC : StepR Tok .check) :
    SRel (thenIgnoreGo aE bC) (thenIgnoreGo aC bC) := by
  intro s
  rcases ORel.cases (ha s) with ⟨hx, hy⟩ | ⟨v, s1, hx, hy⟩ | ⟨e, s1, hx, hy⟩ <;>
    simp only [thenIgnoreGo, hx, hy]
  · exact ORel.none
  · rcases hx2 : bC s1 with _ | ⟨r2, s2⟩
    · exact ORel.none
    · rcases r2 with e2 | u2
      · exact ORel.err
      · simp [ORel]
  · exact ORel.err

theorem thenWithCtxGo_rel (aE : StepR Tok .emit) {bE : StepR Tok .emit}
    {bC : StepR Tok .check} (hb : SRel bE bC)
    (f : Val Tok → Val Tok → Val Tok) :
    SRel (thenWithCtxGo aE bE f) (thenWithCtxGo aE bC f) := by
  intro s
  rcases hx : aE s with _ | ⟨r, s1⟩
  · simp only [thenWithCtxGo, hx]; exact ORel.none
  · rcases r with e | v
    · simp only [thenWithCtxGo, hx]; exact ORel.err
    · simp only [thenWithCtxGo, hx]
      rcases ORel.cases (hb { s1 with ctx := f v s1.ctx }) with ⟨hx2, hy2⟩ |
        ⟨v2, s2, hx2, hy2⟩ | ⟨e2, s2, hx2, hy2⟩ <;> simp [hx2, hy2, ORel]

end ModeLemmas2

section ModeLemmas3

variable {Tok : Type}

theorem delimitedByGo_rel (startC : StepR Tok .check) {pE : StepR Tok .emit}
    {pC : StepR Tok .check} (hp : SRel pE pC) (endC : StepR Tok .check) :
    SRel (delimitedByGo startC pE endC) (delimitedByGo startC pC endC) := by
  intro s
  rcases hx : startC s with _ | ⟨r, s1⟩
  · simp only [delimitedByGo, hx]; exact ORel.none
  · rcases r with e | u
    · simp only [delimitedByGo, hx]; exact ORel.err
    · simp only [delimitedByGo, hx]
      rcases ORel.cases (hp s1) with ⟨hx2, hy2⟩ | ⟨v2, s2, hx2, hy2⟩ |
        ⟨e2, s2, hx2, hy2⟩ <;> simp only [hx2, hy2]
      · exact ORel.none
      · rcases hx3 : endC s2 with _ | ⟨r3, s3⟩
        · exact ORel.none
        · rcases r3 with e3 | u3
          · exact ORel.err
          · exact ORel.ok
      · exact ORel.err

theorem paddedByGo_rel (padC : StepR Tok .check) {pE : StepR Tok .emit}
    {pC : StepR Tok .check} (hp : SRel pE pC) :
    SRel (paddedByGo padC pE) (paddedByGo padC pC) := by
  intro s
  rcases hx : padC s with _ | ⟨r, s1⟩
  · simp only [paddedByGo, hx]; exact ORel.none
  · rcases r with e | u
    · simp only [paddedByGo, hx]; exact ORel.err
    · simp only [paddedByGo, hx]
      rcases ORel.cases (hp s1) with ⟨hx2, hy2⟩ | ⟨v2, s2, hx2, hy2⟩ |
        ⟨e2, s2, hx2, hy2⟩ <;> simp only [hx2, hy2]
      · exact ORel.none
      · rcases hx3 : padC s2 with _ | ⟨r3, s3⟩
        · exact ORel.none
        · rcases r3 with e3 | u3
          · exact ORel.err
          · exact ORel.ok
      · exact ORel.err

theorem orGo_rel {aE bE : StepR Tok .emit} {aC bC : StepR Tok .check}
    (ha : SRel aE aC) (hb : SRel bE bC) :
    SRel (orGo aE bE) (orGo aC bC) := by
  intro s
  rcases ORel.cases (ha s) with ⟨hx, hy⟩ | ⟨v, s1, hx, hy⟩ | ⟨e, s1, hx, hy⟩ <;>
    simp only [orGo, hx, hy]
  · exact ORel.none
  · exact ORel.ok
  · rcases ORel.cases (hb (rewind s1 s.pos)) with ⟨hx2, hy2⟩ |
      ⟨v2, s2, hx2, hy2⟩ | ⟨e2, s2, hx2, hy2⟩ <;> simp only [hx2, hy2]
    · exact ORel.none
    · exact ORel.ok
    · exact ORel.err

theorem recoverWithGo_rel {pE fE : StepR Tok .emit} {pC fC : StepR Tok .check}
    (hp : SRel pE pC) (hf : SRel fE fC) :
    SRel (recoverWithGo pE fE) (recoverWithGo pC fC) := by
  intro s
  rcases ORel.cases (hp s) with ⟨hx, hy⟩ | ⟨v, s1, hx, hy⟩ | ⟨e, s1, hx, hy⟩ <;>
    simp only [recoverWithGo, hx, hy]
  · exact ORel.none
  · exact ORel.ok
  · rcases ORel.cases (hf (rewind s1 s.pos)) with ⟨hx2, hy2⟩ |
      ⟨v2, s2, hx2, hy2⟩ | ⟨e2, s2, hx2, hy2⟩ <;> simp only [hx2, hy2]
    · exact ORel.none
    · exact ORel.ok
    · exact ORel.err

theorem orNotGo_rel {pE : StepR Tok .emit} {pC : StepR Tok .check}
    (hp : SRel pE pC) : SRel (orNotGo pE) (orNotGo pC) := by
  intro s
  rcases ORel.cases (hp s) with ⟨hx, hy⟩ | ⟨v, s1, hx, hy⟩ | ⟨e, s1, hx, hy⟩ <;>
    simp only [orNotGo, hx, hy]
  · exact ORel.none
  · exact ORel.ok
  · exact ORel.ok

theorem notGo_rel (inp : List Tok) (pC : StepR Tok .check) (s : PState Tok) :
    ORel (notGo inp pC .emit s) (notGo inp pC .check s) := by
  unfold notGo
  rcases hx : pC s with _ | ⟨r, s1⟩
  · simp [ORel]
  · rcases r with e | u
    · simp [ORel]
    · rcases hn : inpNext inp (rewind s1 s.pos) with ⟨⟨a, t⟩, s3⟩
      simp [hn, ORel]

theorem andIsGo_rel {aE : StepR Tok .emit} {aC : StepR Tok .check}
    (ha : SRel aE aC) (bC : StepR Tok .check) :
    SRel (andIsGo aE bC) (andIsGo aC bC) := by
  intro s
  rcases ORel.cases (ha s) with ⟨hx, hy⟩ | ⟨v, s1, hx, hy⟩ | ⟨e, s1, hx, hy⟩ <;>
    simp only [andIsGo, hx, hy]
  · exact ORel.none
  · rcases hx2 : bC (rewind s1 s.pos) with _ | ⟨r2, s2⟩
    · exact ORel.none
    · rcases r2 with e2 | u2
      · exact ORel.err
      · exact ORel.ok
  · exact ORel.err

theorem foldrGo_rel {pE : StepR Tok .emit} {pC : StepR Tok .check}
    (hp : SRel pE pC) (f : Val Tok → Val Tok → Val Tok) :
    SRel (foldrGo pE f) (foldrGo pC f) := by
  intro s
  rcases ORel.cases (hp s) with ⟨hx, hy⟩ | ⟨v, s1, hx, hy⟩ | ⟨e, s1, hx, hy⟩ <;>
    simp [foldrGo, hx, hy, ORel]

theorem foldlGo_rel {pE : StepR Tok .emit} {pC : StepR Tok .check}
    (hp : SRel pE pC) (f : Val Tok → Val Tok → Val Tok) :
    SRel (foldlGo pE f) (foldlGo pC f) := by
  intro s
  rcases ORel.cases (hp s) with ⟨hx, hy⟩ | ⟨v, s1, hx, hy⟩ | ⟨e, s1, hx, hy⟩ <;>
    simp [foldlGo, hx, hy, ORel]

theorem rewindGo_rel {pE : StepR Tok .emit} {pC : StepR Tok .check}
    (hp : SRel pE pC) : SRel (rewindGo pE) (rewindGo pC) := by
  intro s
  rcases ORel.cases (hp s) with ⟨hx, hy⟩ | ⟨v, s1, hx, hy⟩ | ⟨e, s1, hx, hy⟩ <;>
    simp [rewindGo, hx, hy, ORel]

theorem mapErrGo_rel {pE : StepR Tok .emit} {pC : StepR Tok .check}
    (hp : SRel pE pC) (f : ErrV Tok → ErrV Tok) :
    SRel (mapErrGo pE f) (mapErrGo pC f) := by
  intro s
  rcases ORel.cases (hp s) with ⟨hx, hy⟩ | ⟨v, s1, hx, hy⟩ | ⟨e, s1, hx, hy⟩ <;>
    simp [mapErrGo, hx, hy, ORel]

theorem mapErrWithSpanGo_rel {pE : StepR Tok .emit} {pC : StepR Tok .check}
    (hp : SRel pE pC) (f : ErrV Tok → Span → ErrV Tok) :
    SRel (mapErrWithSpanGo pE f) (mapErrWithSpanGo pC f) := by
  intro s
  rcases ORel.cases (hp s) with ⟨hx, hy⟩ | ⟨v, s1, hx, hy⟩ | ⟨e, s1, hx, hy⟩ <;>
    simp [mapErrWithSpanGo, hx, hy, ORel]

theorem mapErrWithStateGo_rel {pE : StepR Tok .emit} {pC : StepR Tok .check}
    (hp : SRel pE pC) (f : ErrV Tok → Span → Val Tok → ErrV Tok × Val Tok) :
    SRel (mapErrWithStateGo pE f) (mapErrWithStateGo pC f) := by
  intro s
  rcases ORel.cases (hp s) with ⟨hx, hy⟩ | ⟨v, s1, hx, hy⟩ | ⟨e, s1, hx, hy⟩ <;>
    simp [mapErrWithStateGo, hx, hy, ORel]

theorem validateGo_rel (pE : StepR Tok .emit)
    (f : Val Tok → Span → Val Tok × List (ErrV Tok)) (s : PState Tok) :
    ORel (validateGo pE f .emit s) (validateGo pE f .check s) := by
  unfold validateGo
  rcases hx : pE s with _ | ⟨r, s1⟩
  · simp [ORel]
  · rcases r with e | v
    · simp [ORel]
    · simp [ORel]

theorem orElseGo_rel {pE : StepR Tok .emit} {pC : StepR Tok .check}
    (hp : SRel pE pC) (f : ErrV Tok → Except (ErrV Tok) (Val Tok)) :
    SRel (orElseGo pE f) (orElseGo pC f) := by
  intro s
  rcases ORel.cases (hp s) with ⟨hx, hy⟩ | ⟨v, s1, hx, hy⟩ | ⟨e, s1, hx, hy⟩ <;>
    simp only [orElseGo, hx, hy]
  · exact ORel.none
  · exact ORel.ok
  · rcases hf : f e.err with e2 | o <;> simp [hf, ORel]

theorem sliceGo_rel (inp : List Tok) (pC : StepR Tok .check) (s : PState Tok) :
    ORel (sliceGo inp pC .emit s) (sliceGo inp pC .check s) := by
  unfold sliceGo
  rcases hx : pC s with _ | ⟨r, s1⟩
  · simp [ORel]
  · rcases r with e | u <;> simp [ORel]

theorem mapSliceGo_rel (inp : List Tok) (pC : StepR Tok .check)
    (f : List Tok → Val Tok) (s : PState Tok) :
    ORel (mapSliceGo inp pC f .emit s) (mapSliceGo inp pC f .check s) := by
  unfold mapSliceGo
  rcases hx : pC s with _ | ⟨r, s1⟩
  · simp [ORel]
  · rcases r with e | u <;> simp [ORel]

end ModeLemmas3

section ModeLemmas4

variable {Tok : Type}

theorem takeUntilLoop_rel (inp : List Tok) {uE : StepR Tok .emit}
    {uC : StepR Tok .check} (hu : SRel uE uC) :
    ∀ (fuel : Nat) (outE : Pay Tok .emit) (outC : Pay Tok .check) (s : PState Tok),
      ORel (takeUntilLoop inp uE fuel outE s) (takeUntilLoop inp uC fuel outC s) := by
  intro fuel
  induction fuel with
  | zero => intro _ _ _; exact ORel.none
  | succ fuel ih =>
    intro outE outC s
    rcases ORel.cases (hu s) with ⟨hx, hy⟩ | ⟨v, s1, hx, hy⟩ | ⟨e, s1, hx, hy⟩ <;>
      simp only [takeUntilLoop, hx, hy]
    · exact ORel.none
    · exact ORel.ok
    · rcases hn : inpNext inp (rewind s1 s.pos) with ⟨⟨a, _ | t⟩, s3⟩ <;>
        simp only [hn]
      · exact ORel.err
      · exact ih _ _ _

theorem takeUntilGo_rel (inp : List Tok) {uE : StepR Tok .emit}
    {uC : StepR Tok .check} (hu : SRel uE uC) (fuel : Nat) (s : PState Tok) :
    ORel (takeUntilGo inp uE fuel s) (takeUntilGo inp uC fuel s) := by
  unfold takeUntilGo
  exact takeUntilLoop_rel inp hu fuel _ _ s

theorem repLoop_rel {pE : StepR Tok .emit} {pC : StepR Tok .check}
    (hp : SRel pE pC) (atLeast : Nat) (atMost : Option Nat) :
    ∀ (fuel count : Nat) (outE : Pay Tok .emit) (outC : Pay Tok .check)
      (s : PState Tok),
      ORel (repLoop pE atLeast atMost fuel count outE s)
        (repLoop pC atLeast atMost fuel count outC s) := by
  intro fuel
  induction fuel with
  | zero => intro _ _ _ _; exact ORel.none
  | succ fuel ih =>
    intro count outE outC s
    rcases ORel.cases (hp s) with ⟨hx, hy⟩ | ⟨v, s1, hx, hy⟩ | ⟨e, s1, hx, hy⟩ <;>
      simp only [repLoop, hx, hy]
    · exact ORel.none
    · cases atMost with
      | some m =>
        by_cases hm : count + 1 ≥ m <;> simp only [hm, if_true, if_false, if_pos, if_neg, not_false_iff]
        · exact ORel.ok
        · exact ih _ _ _ _
      | none => exact ih _ _ _ _
    · by_cases hc : count ≥ atLeast <;> simp only [hc, if_true, if_false, if_pos, if_neg, not_false_iff]
      · exact ORel.ok
      · exact ORel.err

theorem repeatedGo_rel {pE : StepR Tok .emit} {pC : StepR Tok .check}
    (hp : SRel pE pC) (atLeast : Nat) (atMost : Option Nat) (fuel : Nat)
    (s : PState Tok) :
    ORel (repeatedGo pE atLeast atMost fuel s) (repeatedGo pC atLeast atMost fuel s) := by
  unfold repeatedGo
  exact repLoop_rel hp atLeast atMost fuel 0 _ _ s

theorem sepLoop_rel {pE : StepR Tok .emit} {pC : StepR Tok .check}
    (hp : SRel pE pC) (sepC : StepR Tok .check) (atLeast : Nat)
    (atMost : Option Nat) :
    ∀ (fuel count : Nat) (outE : Pay Tok .emit) (outC : Pay Tok .check)
      (s : PState Tok),
      ORel (sepLoop pE sepC atLeast atMost fuel count outE s)
        (sepLoop pC sepC atLeast atMost fuel count outC s) := by
  intro fuel
  induction fuel with
  | zero => intro _ _ _ _; exact ORel.none
  | succ fuel ih =>
    intro count outE outC s
    rcases hsep : sepC s with _ | ⟨rs, s1⟩
    · simp only [sepLoop, hsep]; exact ORel.none
    · rcases rs with es | us
      · simp only [sepLoop, hsep]
        by_cases hc : count < atLeast <;> simp only [hc, if_true, if_false, if_pos, if_neg, not_false_iff]
        · exact ORel.err
        · exact ORel.ok
      · simp only [sepLoop, hsep]
        rcases ORel.cases (hp s1) with ⟨hx, hy⟩ | ⟨v, s2, hx, hy⟩ |
          ⟨e, s2, hx, hy⟩ <;> simp only [hx, hy]
        · exact ORel.none
        · cases atMost with
          | some m =>
            by_cases hm : count + 1 ≥ m <;> simp only [hm, if_true, if_false, if_pos, if_neg, not_false_iff]
            · exact ORel.ok
            · exact ih _ _ _ _
          | none => exact ih _ _ _ _
        · by_cases hc : count < atLeast <;> simp only [hc, if_true, if_false, if_pos, if_neg, not_false_iff]
          · exact ORel.err
          · exact ORel.ok

theorem sepByGo_rel {pE : StepR Tok .emit} {pC : StepR Tok .check}
    (hp : SRel pE pC) (sepC : StepR Tok .check) (atLeast : Nat)
    (atMost : Option Nat) (allowLeading allowTrailing : Bool) (fuel : Nat)
    (s : PState Tok) :
    ORel (sepByGo pE sepC atLeast atMost allowLeading allowTrailing fuel s)
      (sepByGo pC sepC atLeast atMost allowLeading allowTrailing fuel s) := by
  rcases hstep1 : sepOptional sepC allowLeading s with _ | s' <;>
    simp only [sepByGo, hstep1]
  · exact ORel.none
  · rcases ORel.cases (hp s') with ⟨hx, hy⟩ | ⟨v, s1, hx, hy⟩ | ⟨e, s1, hx, hy⟩ <;>
      simp only [hx, hy]
    · exact ORel.none
    · rcases ORel.cases (sepLoop_rel hp sepC atLeast atMost fuel 1
        (Md.combine .emit (Md.bind .emit fun _ => Val.list []) v (fun o i => o.push i))
        (Md.combine .check (Md.bind .check fun _ => Val.list []) () (fun o i => o.push i))
        s1) with
        ⟨hx2, hy2⟩ | ⟨v2, s2, hx2, hy2⟩ | ⟨e2, s2, hx2, hy2⟩ <;>
        simp only [hx2, hy2]
      · exact ORel.none
      · rcases hstep6 : sepOptional sepC allowTrailing s2 with _ | s3 <;>
          simp only [hstep6]
        · exact ORel.none
        · exact ORel.ok
      · exact ORel.err
    · by_cases hz : atLeast == 0 <;>
        simp only [hz, if_true, if_false, if_pos, if_neg, not_false_iff]
      · exact ORel.ok
      · exact ORel.err

theorem choiceLoop_rel {α : Type} {stepOfE : α → StepR Tok .emit}
    {stepOfC : α → StepR Tok .check} (before : Nat) :
    ∀ (qs : List α), (∀ q ∈ qs, SRel (stepOfE q) (stepOfC q)) →
      ∀ (acc : Option (Located Tok)) (s : PState Tok),
      ORel (choiceLoop stepOfE before acc qs s)
        (choiceLoop stepOfC before acc qs s) := by
  intro qs
  induction qs with
  | nil => intro _ acc s; simp only [choiceLoop]; exact ORel.err
  | cons q rest ih =>
    intro hrel acc s
    rcases ORel.cases (hrel q (by simp) s) with ⟨hx, hy⟩ | ⟨v, s1, hx, hy⟩ |
      ⟨e, s1, hx, hy⟩ <;> simp only [choiceLoop, hx, hy]
    · exact ORel.none
    · exact ORel.ok
    · exact ih (fun q hq => hrel q (by simp [hq])) _ _

theorem groupLoop_rel {α : Type} {stepOfE : α → StepR Tok .emit}
    {stepOfC : α → StepR Tok .check} :
    ∀ (qs : List α), (∀ q ∈ qs, SRel (stepOfE q) (stepOfC q)) →
      ∀ (s : PState Tok),
      ORel (groupLoop stepOfE qs s) (groupLoop stepOfC qs s) := by
  intro qs
  induction qs with
  | nil => intro _ s; simp only [groupLoop]; exact ORel.ok
  | cons q rest ih =>
    intro hrel s
    rcases ORel.cases (hrel q (by simp) s) with ⟨hx, hy⟩ | ⟨v, s1, hx, hy⟩ |
      ⟨e, s1, hx, hy⟩ <;> simp only [groupLoop, hx, hy]
    · exact ORel.none
    · rcases ORel.cases (ih (fun q hq => hrel q (by simp [hq])) s1) with
        ⟨hx2, hy2⟩ | ⟨v2, s2, hx2, hy2⟩ |
        ⟨e2, s2, hx2, hy2⟩ <;> simp only [hx2, hy2]
      · exact ORel.none
      · exact ORel.ok
      · exact ORel.err
    · exact ORel.err

end ModeLemmas4

section ModeMain

/-- C4 (amended): mode equivalence for every parser built from the
embedded primitives and combinators that does not use `map_with_state`:
running it in emit mode and in check mode from the same state agree on
success or failure, on the returned error, and on the entire final state
(cursor position, user state, context and emitted errors); only the
presence of the output value differs. -/
theorem go_mode_rel {Tok : Type} [DecidableEq Tok] :
    ∀ (fuel : Nat) (p : PE Tok), NoMWS p → ∀ (inp : List Tok) (s : PState Tok),
      ORel (go fuel .emit p inp s) (go fuel .check p inp s) := by
  intro fuel
  induction fuel with
  | zero => intro p hp inp s; exact ORel.none
  | succ fuel ih =>
    intro p hp inp s
    cases hp with
    | end' => exact endGo_rel inp s
    | empty => exact emptyGo_rel s
    | just seq => exact justGo_rel inp seq s
    | oneOf seq => exact oneOfGo_rel inp seq s
    | noneOf seq => exact noneOfGo_rel inp seq s
    | any => exact anyGo_rel inp s
    | takeUntil hsub => exact takeUntilGo_rel inp (fun s => ih _ hsub inp s) fuel s
    | filter f => exact filterGo_rel _ f s
    | map hsub => exact mapGo_rel (fun s => ih _ hsub inp s) _ s
    | mapWithSpan hsub => exact mapWithSpanGo_rel (fun s => ih _ hsub inp s) _ s
    | tryMap f => exact tryMapGo_rel _ f s
    | tryMapWithState f => exact tryMapWithStateGo_rel _ f s
    | toV v => exact toGo_rel _ v s
    | ignored => exact ignoredGo_rel _ s
    | then' ha hb =>
      exact thenGo_rel (fun s => ih _ ha inp s) (fun s => ih _ hb inp s) s
    | ignoreThen hb => exact ignoreThenGo_rel _ (fun s => ih _ hb inp s) s
    | thenIgnore ha => exact thenIgnoreGo_rel (fun s => ih _ ha inp s) _ s
    | thenWithCtx hb => exact thenWithCtxGo_rel _ (fun s => ih _ hb inp s) _ s
    | delimitedBy hsub => exact delimitedByGo_rel _ (fun s => ih _ hsub inp s) _ s
    | paddedBy hsub => exact paddedByGo_rel _ (fun s => ih _ hsub inp s) s
    | or ha hb =>
      exact orGo_rel (fun s => ih _ ha inp s) (fun s => ih _ hb inp s) s
    | recoverWith hp hf =>
      exact recoverWithGo_rel (fun s => ih _ hp inp s) (fun s => ih _ hf inp s) s
    | repeated atLeast atMost hsub =>
      exact repeatedGo_rel (fun s => ih _ hsub inp s) atLeast atMost fuel s
    | separatedBy atLeast atMost allowLeading allowTrailing hsub =>
      exact sepByGo_rel (fun s => ih _ hsub inp s) _ atLeast atMost
        allowLeading allowTrailing fuel s
    | orNot hsub => exact orNotGo_rel (fun s => ih _ hsub inp s) s
    | not => exact notGo_rel inp _ s
    | andIs ha => exact andIsGo_rel (fun s => ih _ ha inp s) _ s
    | foldr hsub => exact foldrGo_rel (fun s => ih _ hsub inp s) _ s
    | foldl hsub => exact foldlGo_rel (fun s => ih _ hsub inp s) _ s
    | rewindP hsub => exact rewindGo_rel (fun s => ih _ hsub inp s) s
    | mapErr hsub => exact mapErrGo_rel (fun s => ih _ hsub inp s) _ s
    | mapErrWithSpan hsub => exact mapErrWithSpanGo_rel (fun s => ih _ hsub inp s) _ s
    | mapErrWithState hsub => exact mapErrWithStateGo_rel (fun s => ih _ hsub inp s) _ s
    | validate f => exact validateGo_rel _ f s
    | orElse hsub => exact orElseGo_rel (fun s => ih _ hsub inp s) _ s
    | slice => exact sliceGo_rel inp _ s
    | mapSlice f => exact mapSliceGo_rel inp _ f s
    | choice h =>
      exact choiceLoop_rel s.pos _ (fun q hq s => ih q (h q hq) inp s) none s
    | group h =>
      exact groupLoop_rel _ (fun q hq s => ih q (h q hq) inp s) s

end ModeMain

section ClaimTheorems

/-- C2: the spec states that a second `define` on an already-defined
recursive handle panics ("Parser defined more than once").  In the code,
`OnceCell::set` overwrites the cell unconditionally — its only failure mode
is an outstanding `RefCell` borrow — so with no borrow outstanding a second
`define` returns normally and silently replaces the stored parser, and the
panic is unreachable.  Evaluated here on a cell that already holds a
parser. -/
theorem c2_define_twice_replaces :
    Recursive.define false (some (1 : Nat)) 2 = DefineResult.ok (some 2) ∧
    (match Recursive.define false (some (1 : Nat)) 2 with
      | .fatal _ => true
      | .ok _ => false) = false :=
  ⟨rfl, rfl⟩

/-- C4 counterexample: a parser built from the provided combinators
(`map_with_state` followed by `try_map_with_state`) fails in emit mode but
succeeds in check mode from the same position, refuting mode equivalence
as universally stated. -/
theorem c4_mode_counterexample :
    go 5 .emit pCex ([] : List Char) st0
      = some (.error ⟨0, expectedFound [] none (0, 0)⟩, ⟨0, .nat 1, .unit, []⟩) ∧
    go 5 .check pCex ([] : List Char) st0
      = some (.ok (), ⟨0, .unit, .unit, []⟩) :=
  ⟨rfl, rfl⟩

theorem c4_witness :
    NoMWS (PE.just ['a']) ∧
    ORel (go 3 .emit (.just ['a']) ['a'] st0) (go 3 .check (.just ['a']) ['a'] st0) :=
  ⟨NoMWS.just ['a'], go_mode_rel 3 (.just ['a']) (NoMWS.just ['a']) ['a'] st0⟩

/-- C1 (amended): `not(p)` runs `p` in check mode and always rewinds to the
entry position after running it.  If `p` fails, `not(p)` succeeds with `()`
and the cursor is at the entry position.  If `p` succeeds, `not(p)` fails
with an unexpected-token error located at the entry position, but reading
the offending token leaves the cursor one token past the entry position
(at the entry position only at end of input). -/
theorem c1_not_behavior {Tok : Type} (inp : List Tok) (pC : StepR Tok .check)
    (M : Md) (s : PState Tok) (r : PRes Tok .check) (s1 : PState Tok)
    (h : pC s = some (r, s1)) :
    (∀ e, r = .error e →
      notGo inp pC M s = some (.ok (Md.bind M fun _ => .unit), rewind s1 s.pos)) ∧
    (∀ u, r = .ok u → ∀ t, inp[s.pos]? = some t →
      notGo inp pC M s =
        some (.error ⟨s.pos, expectedFound [] (some t) (s.pos, s.pos + 1)⟩,
          { s1 with pos := s.pos + 1 })) ∧
    (∀ u, r = .ok u → inp[s.pos]? = none →
      notGo inp pC M s =
        some (.error ⟨s.pos, expectedFound [] none (s.pos, s.pos)⟩,
          { s1 with pos := s.pos })) := by
  refine ⟨?_, ?_, ?_⟩
  · intro e he
    subst he
    simp [notGo, h]
  · intro u hu t ht
    subst hu
    simp [notGo, h, inpNext, rewind, ht, spanSince]
  · intro u hu ht
    subst hu
    simp [notGo, h, inpNext, rewind, ht, spanSince]

/-- C1 counterexample: `not(just 'a')` on input "ab" (where the inner
parser succeeds) returns with the cursor at position 1, not at the entry
position 0 as the claim states for the failure outcome. -/
theorem c1_cursor_counterexample :
    (go 3 .emit (.not (.just ['a'])) ['a', 'b'] st0).map (fun r => r.2.pos)
      = some 1 ∧ (1 : Nat) ≠ 0 :=
  ⟨rfl, by decide⟩

theorem c1_witness :
    ((fun s => go 2 .check (.just ['z']) ['a'] s) (st0 : PState Char)
      = some (.error ⟨0, expectedFound [some 'z'] (some 'a') (0, 1)⟩,
          ⟨1, .unit, .unit, []⟩)) ∧
    notGo ['a'] (fun s => go 2 .check (.just ['z']) ['a'] s) .emit st0
      = some (.ok (Md.bind .emit fun _ => .unit),
          rewind (⟨1, .unit, .unit, []⟩ : PState Char) 0) :=
  ⟨rfl,
    (c1_not_behavior ['a'] (fun s => go 2 .check (.just ['z']) ['a'] s) .emit st0
      (.error ⟨0, expectedFound [some 'z'] (some 'a') (0, 1)⟩)
      ⟨1, .unit, .unit, []⟩ rfl).1 _ rfl⟩

/-- C3 (amended): `rewind(p)` is deterministic — two runs from the same
state give identical results — and on success it restores the cursor to
the entry position; on failure the error propagates unmodified and the
cursor is left wherever `p`'s failed run left it (not necessarily the
entry position). -/
theorem c3_rewind_behavior {Tok : Type} {M : Md} (pM : StepR Tok M)
    (s : PState Tok) :
    (rewindGo pM s = rewindGo pM s) ∧
    (∀ o s1, pM s = some (.ok o, s1) →
      rewindGo pM s = some (.ok o, rewind s1 s.pos)) ∧
    (∀ e s1, pM s = some (.error e, s1) →
      rewindGo pM s = some (.error e, s1)) := by
  refine ⟨rfl, ?_, ?_⟩
  · intro o s1 h
    simp [rewindGo, h]
  · intro e s1 h
    simp [rewindGo, h]

/-- C3 counterexample: `rewind(just "ab")` on input "ax" fails after
consuming two tokens and returns with the cursor at position 2, not at the
starting position 0 as the claim states. -/
theorem c3_cursor_counterexample :
    (go 3 .emit (.rewindP (.just ['a', 'b'])) ['a', 'x'] st0).map
      (fun r => r.2.pos) = some 2 ∧ (2 : Nat) ≠ 0 :=
  ⟨rfl, by decide⟩

theorem c3_witness :
    ((fun s => go 2 .emit (.just ['a']) ['a'] s) (st0 : PState Char)
      = some (.ok (.list [.tok 'a']), ⟨1, .unit, .unit, []⟩)) ∧
    rewindGo (fun s => go 2 .emit (.just ['a']) ['a'] s) st0
      = some (.ok (.list [.tok 'a']),
          rewind (⟨1, .unit, .unit, []⟩ : PState Char) 0) :=
  ⟨rfl,
    (c3_rewind_behavior (fun s => go 2 .emit (.just ['a']) ['a'] s) st0).2.1
      (.list [.tok 'a']) ⟨1, .unit, .unit, []⟩ rfl⟩

end ClaimTheorems

section ClaimTheorems5

/-- A leading or trailing separator attempt is skipped entirely when the
corresponding flag is off. -/
theorem sepOptional_false {Tok : Type} (sepC : StepR Tok .check)
    (s : PState Tok) : sepOptional sepC false s = some s := rfl

/-- C5: whenever the `separated_by` loop breaks out successfully after a
speculative separator attempt (either the separator itself failed, or the
separator succeeded and the following item failed), the returned state is
rewound to the position just before that separator, so a parser run
immediately afterwards observes the separator; concretely,
`just('-').separated_by(just(',')).then(just(','))` on "-,-,-," collects
the three items and then itself consumes the rewound trailing separator. -/
theorem c5_sepby_rewinds_separator {Tok : Type} {M : Md} (pM : StepR Tok M)
    (sepC : StepR Tok .check) (atLeast : Nat) (atMost : Option Nat)
    (fuel count : Nat) (output : Pay Tok M) (s : PState Tok)
    (hcount : atLeast ≤ count)
    (hbreak :
      (∃ u s1 e s2, sepC s = some (.ok u, s1) ∧ pM s1 = some (.error e, s2)) ∨
      (∃ e s1, sepC s = some (.error e, s1))) :
    (∃ s2, sepLoop pM sepC atLeast atMost (fuel + 1) count output s
        = some (.ok output, s2) ∧ s2.pos = s.pos) ∧
    go 9 .emit
        (.then' (.separatedBy (.just ['-']) (.just [',']) 0 none false false)
          (.just [',']))
        ['-', ',', '-', ',', '-', ','] st0
      = some (.ok (.pair
          (.list [.list [.tok '-'], .list [.tok '-'], .list [.tok '-']])
          (.list [.tok ','])), ⟨6, .unit, .unit, []⟩) := by
  refine ⟨?_, rfl⟩
  rcases hbreak with ⟨u, s1, e, s2, hsep, hpm⟩ | ⟨e, s1, hsep⟩
  · refine ⟨rewind s2 s.pos, ?_, rfl⟩
    simp [sepLoop, hsep, hpm, Nat.not_lt.mpr hcount]
  · refine ⟨rewind s1 s.pos, ?_, rfl⟩
    simp [sepLoop, hsep, Nat.not_lt.mpr hcount]

theorem c5_witness :
    ((0 : Nat) ≤ 1 ∧
      (fun s => go 2 .check (.just [',']) ['x'] s) (st0 : PState Char)
        = some (.error ⟨0, expectedFound [some ','] (some 'x') (0, 1)⟩,
            ⟨1, .unit, .unit, []⟩)) ∧
    ((∃ s2, sepLoop (fun s => go 2 .emit (.just ['-']) ['x'] s)
          (fun s => go 2 .check (.just [',']) ['x'] s) 0 none 3 1
          (Val.list [Val.tok '-']) st0
        = some (.ok (Val.list [Val.tok '-']), s2) ∧ s2.pos = (0 : Nat)) ∧
      go 9 .emit
          (.then' (.separatedBy (.just ['-']) (.just [',']) 0 none false false)
            (.just [',']))
          ['-', ',', '-', ',', '-', ','] st0
        = some (.ok (.pair
            (.list [.list [.tok '-'], .list [.tok '-'], .list [.tok '-']])
            (.list [.tok ','])), ⟨6, .unit, .unit, []⟩)) :=
  ⟨⟨by decide, rfl⟩,
    c5_sepby_rewinds_separator (fun s => go 2 .emit (.just ['-']) ['x'] s)
      (fun s => go 2 .check (.just [',']) ['x'] s) 0 none 2 1
      (Val.list [Val.tok '-']) st0 (by decide)
      (Or.inr ⟨⟨0, expectedFound [some ','] (some 'x') (0, 1)⟩,
        ⟨1, .unit, .unit, []⟩, rfl⟩)⟩

end ClaimTheorems5

section ClaimTheorems6

/-- When the `separated_by` loop (with `at_least = n` and no upper bound)
terminates successfully, the collected list has at least `n` elements. -/
theorem sepLoop_success_len {Tok : Type} (pM : StepR Tok .emit)
    (sepC : StepR Tok .check) (n : Nat) :
    ∀ (fuel count : Nat) (vs : List (Val Tok)) (s : PState Tok) (v : Val Tok)
      (s2 : PState Tok),
      sepLoop pM sepC n none fuel count (Val.list vs) s = some (.ok v, s2) →
      vs.length = count → n ≤ v.vLen := by
  intro fuel
  induction fuel with
  | zero => intro count vs s v s2 h _; simp [sepLoop] at h
  | succ fuel ih =>
    intro count vs s v s2 h hlen
    rcases hsep : sepC s with _ | ⟨rs, s1⟩
    · simp [sepLoop, hsep] at h
    · rcases rs with es | us
      · by_cases hc : count < n
        · simp [sepLoop, hsep, hc] at h
        · simp only [sepLoop, hsep, if_neg hc, Option.some.injEq,
            Prod.mk.injEq, Except.ok.injEq] at h
          obtain ⟨h1, -⟩ := h
          subst h1
          simpa [Val.vLen, hlen] using Nat.le_of_not_lt hc
      · rcases hpm : pM s1 with _ | ⟨rp, sp⟩
        · simp [sepLoop, hsep, hpm] at h
        · rcases rp with ep | item
          · by_cases hc : count < n
            · simp [sepLoop, hsep, hpm, hc] at h
            · simp only [sepLoop, hsep, hpm, if_neg hc, Option.some.injEq,
                Prod.mk.injEq, Except.ok.injEq] at h
              obtain ⟨h1, -⟩ := h
              subst h1
              simpa [Val.vLen, hlen] using Nat.le_of_not_lt hc
          · simp only [sepLoop, hsep, hpm] at h
            exact ih (count + 1) (vs ++ [(item : Val Tok)]) sp v s2 (by exact h)
              (by simp [hlen])

/-- When the `separated_by` loop with `at_least = n` fails, the identical
loop with `at_least = 0` succeeds from the same point, collecting fewer
than `n` elements in total. -/
theorem sepLoop_err_relax {Tok : Type} (pM : StepR Tok .emit)
    (sepC : StepR Tok .check) (n : Nat) :
    ∀ (fuel count : Nat) (vs : List (Val Tok)) (s : PState Tok)
      (e : Located Tok) (s2 : PState Tok),
      sepLoop pM sepC n none fuel count (Val.list vs) s = some (.error e, s2) →
      vs.length = count →
      ∃ (vs2 : List (Val Tok)) (s3 : PState Tok),
        sepLoop pM sepC 0 none fuel count (Val.list vs) s
          = some (.ok (.list vs2), s3) ∧ vs2.length < n := by
  intro fuel
  induction fuel with
  | zero => intro count vs s e s2 h _; simp [sepLoop] at h
  | succ fuel ih =>
    intro count vs s e s2 h hlen
    rcases hsep : sepC s with _ | ⟨rs, s1⟩
    · simp [sepLoop, hsep] at h
    · rcases rs with es | us
      · by_cases hc : count < n
        · refine ⟨vs, rewind s1 s.pos, ?_, by omega⟩
          simp [sepLoop, hsep]
        · simp [sepLoop, hsep, hc] at h
      · rcases hpm : pM s1 with _ | ⟨rp, sp⟩
        · simp [sepLoop, hsep, hpm] at h
        · rcases rp with ep | item
          · by_cases hc : count < n
            · refine ⟨vs, rewind sp s.pos, ?_, by omega⟩
              simp [sepLoop, hsep, hpm]
            · simp [sepLoop, hsep, hpm, hc] at h
          · simp only [sepLoop, hsep, hpm] at h
            obtain ⟨vs2, s3, h0, hlt⟩ :=
              ih (count + 1) (vs ++ [(item : Val Tok)]) sp e s2 (by exact h) (by simp [hlen])
            refine ⟨vs2, s3, ?_, hlt⟩
            simp only [sepLoop, hsep, hpm]
            exact h0

end ClaimTheorems6

section ClaimTheorems6b

/-- C6: for `separated_by(p, sep)` configured with `at_least = n` (and no
upper bound): if it succeeds in emit mode then the collected container has
at least `n` items, and if it fails then fewer than `n` items were
available at that position — witnessed by the maximally permissive run
(`at_least = 0`), which succeeds from the same position with fewer than `n`
items. -/
theorem c6_sepby_at_least_boundary {Tok : Type} (pM : StepR Tok .emit)
    (sepC : StepR Tok .check) (n fuel : Nat) (s : PState Tok)
    (r : PRes Tok .emit) (s1 : PState Tok)
    (h : sepByGo pM sepC n none false false fuel s = some (r, s1)) :
    (∀ v, r = .ok v → n ≤ v.vLen) ∧
    (∀ e, r = .error e → ∃ (vs : List (Val Tok)) (s2 : PState Tok),
      sepByGo pM sepC 0 none false false fuel s = some (.ok (.list vs), s2) ∧
      vs.length < n) := by
  simp only [sepByGo, sepOptional_false] at h
  rcases hpm : pM s with _ | ⟨rp, sp⟩
  · simp [hpm] at h
  · rcases rp with err | item
    · simp only [hpm] at h
      by_cases hz : n = 0
      · subst hz
        simp only [show ((0 : Nat) == 0) = true from rfl, if_true,
          Option.some.injEq, Prod.mk.injEq] at h
        obtain ⟨h1, h2⟩ := h
        constructor
        · intro v hv
          exact Nat.zero_le _
        · intro e he
          rw [← h1] at he
          cases he
      · have hz' : (n == 0) = false := by simp [hz]
        simp only [hz', Bool.false_eq_true, if_false, Option.some.injEq,
          Prod.mk.injEq] at h
        obtain ⟨h1, h2⟩ := h
        constructor
        · intro v hv
          rw [← h1] at hv
          cases hv
        · intro e he
          refine ⟨[], rewind sp s.pos, ?_, by simpa using Nat.pos_of_ne_zero hz⟩
          simp [sepByGo, sepOptional_false, hpm]
          rfl
    · simp only [hpm] at h
      rcases hloop : sepLoop pM sepC n none fuel 1
          (Md.combine .emit (Md.bind .emit fun _ => Val.list []) item
            (fun o i => o.push i)) sp with _ | ⟨rl, sl⟩
      · simp [hloop] at h
      · rcases rl with e | v'
        · simp only [hloop, Option.some.injEq, Prod.mk.injEq] at h
          obtain ⟨h1, h2⟩ := h
          constructor
          · intro v hv
            rw [← h1] at hv
            cases hv
          · intro e' he'
            obtain ⟨vs2, s3, h0, hlt⟩ :=
              sepLoop_err_relax pM sepC n fuel 1 [(item : Val Tok)] sp e sl
                (by exact hloop) rfl
            refine ⟨vs2, s3, ?_, hlt⟩
            simp only [sepByGo, sepOptional_false, hpm]
            rw [show sepLoop pM sepC 0 none fuel 1
                (Md.combine .emit (Md.bind .emit fun _ => Val.list []) item
                  (fun o i => o.push i)) sp
              = some (.ok (Val.list vs2), s3) from h0]
        · simp only [hloop, sepOptional_false, Option.some.injEq,
            Prod.mk.injEq] at h
          obtain ⟨h1, h2⟩ := h
          constructor
          · intro v hv
            rw [← h1] at hv
            injection hv with hv
            subst hv
            exact sepLoop_success_len pM sepC n fuel 1 [(item : Val Tok)] sp v' sl
              (by exact hloop) rfl
          · intro e he
            rw [← h1] at he
            cases he

theorem c6_witness :
    (sepByGo (fun s => go 3 .emit (.just ['-']) ['-', ',', '-'] s)
        (fun s => go 3 .check (.just [',']) ['-', ',', '-'] s) 2 none false false 5 st0
      = some (.ok (.list [.list [.tok '-'], .list [.tok '-']]),
          ⟨3, .unit, .unit, []⟩)) ∧
    (2 : Nat) ≤ (Val.list [Val.list [Val.tok '-'],
      Val.list [Val.tok '-']] : Val Char).vLen :=
  ⟨rfl,
    (c6_sepby_at_least_boundary (fun s => go 3 .emit (.just ['-']) ['-', ',', '-'] s)
        (fun s => go 3 .check (.just [',']) ['-', ',', '-'] s) 2 5 st0
        (.ok (.list [.list [.tok '-'], .list [.tok '-']]))
        ⟨3, .unit, .unit, []⟩ rfl).1
      (.list [.list [.tok '-'], .list [.tok '-']]) rfl⟩

end ClaimTheorems6b

section ClaimTheorems7to10

/-- C7 counterexample: on input "fax", `just("foo").or(just("far"))` fails
with expected set {'r'} at position 2 with found 'x'.  The two branch
errors sit at different positions (1 and 2), so the later one wins outright
and the merged expected set {'o','a'} claimed by the spec is not
produced. -/
theorem c7_expected_set_counterexample :
    go 9 .emit (.or (.just ['f', 'o', 'o']) (.just ['f', 'a', 'r']))
        ['f', 'a', 'x'] st0
      = some (.error ⟨2, expectedFound [some 'r'] (some 'x') (2, 3)⟩,
          ⟨3, .unit, .unit, []⟩) ∧
    ([some 'r'] : List (Option Char)) ≠ [some 'o', some 'a'] :=
  ⟨rfl, by decide⟩

/-- C7 (amended): when both branches of `or` fail, the returned error is
obtained by prioritization then merging: the error at the later input
position is returned, and at equal positions the merge of the two errors is
returned; in particular `just("foo").or(just("far"))` on "fax" fails with
expected set {'r'} at position 2 with found = 'x'. -/
theorem c7_or_prioritizes {Tok : Type} {M : Md} (aM bM : StepR Tok M)
    (s : PState Tok) (ea eb : Located Tok) (s1 s2 : PState Tok)
    (ha : aM s = some (.error ea, s1))
    (hb : bM (rewind s1 s.pos) = some (.error eb, s2)) :
    orGo aM bM s = some (.error
      (if ea.pos < eb.pos then eb
       else if eb.pos < ea.pos then ea
       else ⟨ea.pos, ea.err.merge eb.err⟩), s2) := by
  simp [orGo, ha, hb, Located.prioritize]

theorem c7_witness :
    (((fun s => go 5 .emit (.just ['f', 'o', 'o']) ['f', 'a', 'x'] s)
        (st0 : PState Char)
      = some (.error ⟨1, expectedFound [some 'o'] (some 'a') (1, 2)⟩,
          ⟨2, .unit, .unit, []⟩)) ∧
     ((fun s => go 5 .emit (.just ['f', 'a', 'r']) ['f', 'a', 'x'] s)
        (rewind (⟨2, .unit, .unit, []⟩ : PState Char) 0)
      = some (.error ⟨2, expectedFound [some 'r'] (some 'x') (2, 3)⟩,
          ⟨3, .unit, .unit, []⟩))) ∧
    orGo (fun s => go 5 .emit (.just ['f', 'o', 'o']) ['f', 'a', 'x'] s)
        (fun s => go 5 .emit (.just ['f', 'a', 'r']) ['f', 'a', 'x'] s) st0
      = some (.error ⟨2, expectedFound [some 'r'] (some 'x') (2, 3)⟩,
          ⟨3, .unit, .unit, []⟩) :=
  ⟨⟨rfl, rfl⟩,
    c7_or_prioritizes
      (fun s => go 5 .emit (.just ['f', 'o', 'o']) ['f', 'a', 'x'] s)
      (fun s => go 5 .emit (.just ['f', 'a', 'r']) ['f', 'a', 'x'] s) st0
      ⟨1, expectedFound [some 'o'] (some 'a') (1, 2)⟩
      ⟨2, expectedFound [some 'r'] (some 'x') (2, 3)⟩
      ⟨2, .unit, .unit, []⟩ ⟨3, .unit, .unit, []⟩ rfl rfl⟩

/-- C8: `take_until(terminator)` repeatedly consumes single tokens into the
container until the terminator succeeds, yielding the pair of the container
and the terminator output; each failed terminator attempt is rewound before
the token is consumed; if end of input is reached before the terminator
matches, the terminator's last error is returned; and concretely
`take_until(just("*/"))` on "abc*/xyz" yields container "abc" and
terminator output "*/" with the cursor left just past "*/" (position 5). -/
theorem c8_take_until :
    (∀ (Tok : Type) (M : Md) (inp : List Tok) (untilM : StepR Tok M)
        (fuel : Nat) (out output : Pay Tok M) (s s1 : PState Tok),
      untilM s = some (.ok out, s1) →
      takeUntilLoop inp untilM (fuel + 1) output s
        = some (.ok (Md.combine M output out (fun o t => .pair o t)), s1)) ∧
    (∀ (Tok : Type) (M : Md) (inp : List Tok) (untilM : StepR Tok M)
        (fuel : Nat) (output : Pay Tok M) (s s1 : PState Tok)
        (e : Located Tok) (t : Tok),
      untilM s = some (.error e, s1) → inp[s.pos]? = some t →
      takeUntilLoop inp untilM (fuel + 1) output s
        = takeUntilLoop inp untilM fuel
            (Md.map M output (fun o => o.push (.tok t)))
            { s1 with pos := s.pos + 1 }) ∧
    (∀ (Tok : Type) (M : Md) (inp : List Tok) (untilM : StepR Tok M)
        (fuel : Nat) (output : Pay Tok M) (s s1 : PState Tok)
        (e : Located Tok),
      untilM s = some (.error e, s1) → inp[s.pos]? = none →
      takeUntilLoop inp untilM (fuel + 1) output s
        = some (.error e, { s1 with pos := s.pos })) ∧
    go 12 .emit (.takeUntil (.just ['*', '/']))
        ['a', 'b', 'c', '*', '/', 'x', 'y', 'z'] st0
      = some (.ok (.pair (.list [.tok 'a', .tok 'b', .tok 'c'])
          (.list [.tok '*', .tok '/'])), ⟨5, .unit, .unit, []⟩) := by
  refine ⟨?_, ?_, ?_, rfl⟩
  · intro Tok M inp untilM fuel out output s s1 h
    simp [takeUntilLoop, h]
  · intro Tok M inp untilM fuel output s s1 e t h ht
    simp [takeUntilLoop, h, inpNext, rewind, ht]
  · intro Tok M inp untilM fuel output s s1 e h ht
    simp [takeUntilLoop, h, inpNext, rewind, ht]

theorem c8_witness :
    (((fun s => go 2 .emit (.just ['*']) ([] : List Char) s)
        (st0 : PState Char)
      = some (.error ⟨0, expectedFound [some '*'] none (0, 0)⟩,
          ⟨0, .unit, .unit, []⟩)) ∧
     (([] : List Char)[(st0 : PState Char).pos]? = none)) ∧
    takeUntilLoop ([] : List Char)
        (fun s => go 2 .emit (.just ['*']) ([] : List Char) s) 3
        (Val.list []) st0
      = some (.error ⟨0, expectedFound [some '*'] none (0, 0)⟩,
          ⟨0, .unit, .unit, []⟩) :=
  ⟨⟨rfl, rfl⟩,
    c8_take_until.2.2.1 Char .emit []
      (fun s => go 2 .emit (.just ['*']) ([] : List Char) s) 2
      (Val.list []) st0 ⟨0, .unit, .unit, []⟩
      ⟨0, expectedFound [some '*'] none (0, 0)⟩ rfl rfl⟩

/-- C9: `or_not(p)` never fails: if `p` succeeds from the position, the
output is `Some` of `p`'s output with the cursor left where `p` left it;
if `p` fails, the cursor is rewound to the entry position and the output is
`None`. -/
theorem c9_or_not_total {Tok : Type} {M : Md} (pM : StepR Tok M)
    (s : PState Tok) (r : PRes Tok M) (s1 : PState Tok)
    (h : pM s = some (r, s1)) :
    orNotGo pM s = some (match r with
      | .ok o => (.ok (Md.map M o (fun v => .opt (some v))), s1)
      | .error _ => (.ok (Md.bind M fun _ => .opt none), rewind s1 s.pos)) := by
  rcases r with e | o <;> simp [orNotGo, h]

theorem c9_witness :
    ((fun s => go 2 .emit (.just ['z']) ['a'] s) (st0 : PState Char)
      = some (.error ⟨0, expectedFound [some 'z'] (some 'a') (0, 1)⟩,
          ⟨1, .unit, .unit, []⟩)) ∧
    orNotGo (fun s => go 2 .emit (.just ['z']) ['a'] s) st0
      = some (.ok (Val.opt none), rewind (⟨1, .unit, .unit, []⟩ : PState Char) 0) :=
  ⟨rfl,
    c9_or_not_total (fun s => go 2 .emit (.just ['z']) ['a'] s) st0
      (.error ⟨0, expectedFound [some 'z'] (some 'a') (0, 1)⟩)
      ⟨1, .unit, .unit, []⟩ rfl⟩

/-- C10: `or_else(p, f)` never rewinds the cursor: on success of `p` the
result passes through unchanged; when `p` fails and `f(error)` returns
`Ok(out)`, the recovered success leaves the cursor wherever `p`'s failed
run left it; and when `f` returns `Err(e2)`, the returned located error
carries the new error value `e2` but keeps the position of `p`'s original
error, again with the cursor left where `p`'s failed run left it. -/
theorem c10_or_else_no_rewind {Tok : Type} {M : Md} (pM : StepR Tok M)
    (f : ErrV Tok → Except (ErrV Tok) (Val Tok)) (s : PState Tok)
    (r : PRes Tok M) (s1 : PState Tok) (h : pM s = some (r, s1)) :
    (∀ o, r = .ok o → orElseGo pM f s = some (.ok o, s1)) ∧
    (∀ e out, r = .error e → f e.err = .ok out →
      orElseGo pM f s = some (.ok (Md.bind M fun _ => out), s1)) ∧
    (∀ e e2, r = .error e → f e.err = .error e2 →
      orElseGo pM f s = some (.error ⟨e.pos, e2⟩, s1)) := by
  refine ⟨?_, ?_, ?_⟩
  · intro o ho
    subst ho
    simp [orElseGo, h]
  · intro e out he hf
    subst he
    simp [orElseGo, h, hf]
  · intro e e2 he hf
    subst he
    simp [orElseGo, h, hf]

theorem c10_witness :
    (((fun s => go 2 .emit (.just ['z']) ['a'] s) (st0 : PState Char)
      = some (.error ⟨0, expectedFound [some 'z'] (some 'a') (0, 1)⟩,
          ⟨1, .unit, .unit, []⟩)) ∧
     ((fun _ => Except.ok Val.unit :
          ErrV Char → Except (ErrV Char) (Val Char))
        (expectedFound [some 'z'] (some 'a') (0, 1))
      = Except.ok Val.unit)) ∧
    orElseGo (fun s => go 2 .emit (.just ['z']) ['a'] s)
        (fun _ => Except.ok Val.unit) st0
      = some (.ok Val.unit, ⟨1, .unit, .unit, []⟩) :=
  ⟨⟨rfl, rfl⟩,
    (c10_or_else_no_rewind (fun s => go 2 .emit (.just ['z']) ['a'] s)
        (fun _ => Except.ok Val.unit) st0
        (.error ⟨0, expectedFound [some 'z'] (some 'a') (0, 1)⟩)
        ⟨1, .unit, .unit, []⟩ rfl).2.1
      ⟨0, expectedFound [some 'z'] (some 'a') (0, 1)⟩ Val.unit rfl rfl⟩

end ClaimTheorems7to10
